import Mathlib

/-!
Verification development for the template-generation service.

The Python services under `src/services/` are shallowly embedded as Lean
definitions:

* `template_engine.py` — template validation, section operations,
  export/import (JSON round trip);
* `ai_service.py` — per-section content generation, citation extraction,
  list formatting, refinement fallback, content-quality scoring;
* `output_generator.py` — the three renderers (docx, pdf, pptx), embedded as
  functions producing the ordered list of emitted document events.

Python dicts are embedded as association lists (`AList`), JSON-able Python
values as the inductive `Val`, the fallible Gemini completion calls as
explicit `Except String String` oracles (indexed by call number where a
function performs several calls), and `json.dumps` / `json.loads` as an
executable printer/parser pair over `Val` (compact printing; the parser
accepts exactly the printed grammar, which is the fragment the round-trip
property exercises).  Exceptions are embedded as `Except String`; functions
whose happy path cannot raise are total.
-/

namespace TG

/-! ## Python values (`Val`): the JSON-able fragment of Python data

`Val` models the dict/list/str/int/bool/None values that flow through the
template engine.  Floats are out of the model (`num` carries `Int`); no
claim depends on float arithmetic.  Dicts are insertion-ordered association
lists, matching Python 3.7+ dict semantics.
-/

inductive Val where
  | null
  | bool (b : Bool)
  | num (n : Int)
  | str (s : String)
  | arr (xs : List Val)
  | obj (kvs : List (String × Val))
  deriving Repr

namespace Val

mutual

/-- Structural equality on `Val`, modelling Python `==` on JSON-able data. -/
def beq : Val → Val → Bool
  | .null, .null => true
  | .bool a, .bool b => a == b
  | .num a, .num b => a == b
  | .str a, .str b => a == b
  | .arr xs, .arr ys => beqL xs ys
  | .obj xs, .obj ys => beqO xs ys
  | _, _ => false

/-- Pointwise `beq` on lists of values. -/
def beqL : List Val → List Val → Bool
  | [], [] => true
  | x :: xs, y :: ys => beq x y && beqL xs ys
  | _, _ => false

/-- Pointwise `beq` on association lists. -/
def beqO : List (String × Val) → List (String × Val) → Bool
  | [], [] => true
  | (k, v) :: xs, (k2, v2) :: ys => k == k2 && beq v v2 && beqO xs ys
  | _, _ => false

end

/-- Induction principle for the nested inductive `Val`. -/
theorem indOn (P : Val → Prop)
    (h0 : P .null) (h1 : ∀ b, P (.bool b)) (h2 : ∀ n, P (.num n)) (h3 : ∀ s, P (.str s))
    (h4 : ∀ xs, (∀ v, v ∈ xs → P v) → P (.arr xs))
    (h5 : ∀ kvs, (∀ kv, kv ∈ kvs → P kv.2) → P (.obj kvs)) : ∀ v, P v
  | .null => h0
  | .bool b => h1 b
  | .num n => h2 n
  | .str s => h3 s
  | .arr xs => h4 xs (fun v hv =>
      have : sizeOf v < 1 + sizeOf xs := by
        have := List.sizeOf_lt_of_mem hv
        omega
      indOn P h0 h1 h2 h3 h4 h5 v)
  | .obj kvs => h5 kvs (fun kv hkv =>
      have : sizeOf kv.2 < 1 + sizeOf kvs := by
        have h := List.sizeOf_lt_of_mem hkv
        have h2 : sizeOf kv.2 < sizeOf kv := by
          obtain ⟨a, b⟩ := kv
          simp only [Prod.mk.sizeOf_spec]; omega
        omega
      indOn P h0 h1 h2 h3 h4 h5 kv.2)
termination_by v => sizeOf v

/-- `beq` decides propositional equality of `Val`. -/
theorem beq_iff : ∀ a b : Val, beq a b = true ↔ a = b := by
  intro a
  induction a using indOn with
  | h0 => intro b; cases b <;> simp [beq]
  | h1 x => intro b; cases b <;> simp [beq]
  | h2 x => intro b; cases b <;> simp [beq]
  | h3 x => intro b; cases b <;> simp [beq]
  | h4 xs ih =>
    intro b; cases b <;> simp [beq]
    case arr ys =>
      induction xs generalizing ys with
      | nil => cases ys <;> simp [beqL]
      | cons x xs ihx =>
        cases ys with
        | nil => simp [beqL]
        | cons y ys =>
          simp only [beqL, Bool.and_eq_true, List.cons.injEq]
          rw [ih x (by simp), ihx (fun v hv => ih v (by simp [hv])) ys]
  | h5 kvs ih =>
    intro b; cases b <;> simp [beq]
    case obj ys =>
      induction kvs generalizing ys with
      | nil => cases ys <;> simp [beqO]
      | cons x xs ihx =>
        cases ys with
        | nil => simp [beqO]
        | cons y ys =>
          obtain ⟨k, v⟩ := x; obtain ⟨k2, v2⟩ := y
          simp only [beqO, Bool.and_eq_true, List.cons.injEq, Prod.mk.injEq, beq_iff_eq]
          rw [ih ⟨k, v⟩ (by simp)]
          constructor
          · rintro ⟨⟨hk, hv⟩, ht⟩
            exact ⟨⟨hk, hv⟩, (ihx (fun kv hkv => ih kv (by simp [hkv])) ys).mp ht⟩
          · rintro ⟨⟨hk, hv⟩, ht⟩
            exact ⟨⟨hk, hv⟩, (ihx (fun kv hkv => ih kv (by simp [hkv])) ys).mpr ht⟩

instance instDecEqVal : DecidableEq Val := fun a b => decidable_of_iff _ (beq_iff a b)

end Val

/-! ## Association-list dictionaries

Python dicts keyed by strings, preserving insertion order.  `dset` models
`d[k] = v` (replace in place if present, else append); `dget` models
`d.get(k)`; `dHasKey` models `k in d`.
-/

/-- `d.get(k)` / `d[k]` lookup: first binding of `k`. -/
def dget {a : Type} (d : List (String × a)) (k : String) : Option a :=
  match d with
  | [] => none
  | (k2, v) :: rest => if k2 = k then some v else dget rest k

/-- `k in d` for a Python dict. -/
def dHasKey {a : Type} (d : List (String × a)) (k : String) : Bool :=
  d.any (fun kv => kv.1 = k)

/-- `d[k] = v` for a Python dict: overwrite in place, else append. -/
def dset {a : Type} (d : List (String × a)) (k : String) (v : a) : List (String × a) :=
  match d with
  | [] => [(k, v)]
  | (k2, v2) :: rest => if k2 = k then (k2, v) :: rest else (k2, v2) :: dset rest k v

/-- `d.update(u)` for Python dicts: assign each binding of `u` in order. -/
def dupdate {a : Type} (d u : List (String × a)) : List (String × a) :=
  match u with
  | [] => d
  | (k, v) :: rest => dupdate (dset d k v) rest

/-! ## `json.dumps` / `json.loads`

`export_template` serializes with `json.dumps` and `import_template` parses
with `json.loads`.  The embedding prints compactly (whitespace is
semantically inert for `json.loads`) and the parser accepts the printed
grammar.  Characters below 0x20 are escaped (`\n`, `\t`, `\r`, `\u00XX`),
as are the quote and the backslash.
-/

/-- Opening brace character (0x7b). -/
def lbraceChar : Char := Char.ofNat 123

/-- Closing brace character (0x7d). -/
def rbraceChar : Char := Char.ofNat 125

/-- Lower-case hex digit for a value below 16. -/
def hexDigitChar (n : Nat) : Char :=
  if n < 10 then Char.ofNat (48 + n) else Char.ofNat (87 + n)

/-- JSON string escape for one character. -/
def escChar (c : Char) : List Char :=
  if c = '"' then ['\\', '"']
  else if c = '\\' then ['\\', '\\']
  else if c = '\n' then ['\\', 'n']
  else if c = '\t' then ['\\', 't']
  else if c = '\r' then ['\\', 'r']
  else if c.toNat < 32 then
    ['\\', 'u', '0', '0', hexDigitChar (c.toNat / 16), hexDigitChar (c.toNat % 16)]
  else [c]

/-- Escaped body of a JSON string literal. -/
def printStrBody (cs : List Char) : List Char := cs.flatMap escChar

/-- Decimal digits of a positive number, most significant first. -/
def natDigitsGo : Nat → List Char → List Char
  | 0, acc => acc
  | n + 1, acc => natDigitsGo ((n + 1) / 10) (Char.ofNat (48 + (n + 1) % 10) :: acc)
decreasing_by exact Nat.div_lt_self (Nat.succ_pos n) (by omega)

/-- Decimal representation of a natural number. -/
def natChars (n : Nat) : List Char :=
  if n = 0 then ['0'] else natDigitsGo n []

/-- Decimal representation of an integer. -/
def intChars (n : Int) : List Char :=
  if n < 0 then '-' :: natChars n.natAbs else natChars n.natAbs

/-- The characters of the `null` keyword. -/
def nullChars : List Char := ['n', 'u', 'l', 'l']

/-- The characters of the `true` keyword. -/
def trueChars : List Char := ['t', 'r', 'u', 'e']

/-- The characters of the `false` keyword. -/
def falseChars : List Char := ['f', 'a', 'l', 's', 'e']

mutual

/-- Compact JSON printing of a `Val` (models the structure emitted by
`json.dumps`; the indentation `json.dumps(template, indent=2)` adds is
whitespace that `json.loads` ignores). -/
def printVal : Val → List Char
  | .null => nullChars
  | .bool true => trueChars
  | .bool false => falseChars
  | .num n => intChars n
  | .str s => '"' :: (printStrBody s.data ++ ['"'])
  | .arr [] => ['[', ']']
  | .arr (x :: xs) => '[' :: (printVal x ++ printArrTailChars xs ++ [']'])
  | .obj [] => [lbraceChar, rbraceChar]
  | .obj (kv :: kvs) =>
      lbraceChar :: (printKV kv ++ printObjTailChars kvs ++ [rbraceChar])

/-- One `"key":value` pair. -/
def printKV : String × Val → List Char
  | (k, v) => '"' :: (printStrBody k.data ++ ['"', ':']) ++ printVal v

/-- Comma-prefixed remaining array elements. -/
def printArrTailChars : List Val → List Char
  | [] => []
  | y :: ys => ',' :: printVal y ++ printArrTailChars ys

/-- Comma-prefixed remaining object entries. -/
def printObjTailChars : List (String × Val) → List Char
  | [] => []
  | kv :: kvs => ',' :: printKV kv ++ printObjTailChars kvs

end

/-- Value of a hex digit character, if it is one. -/
def parseHexDigitVal (c : Char) : Option Nat :=
  if 48 ≤ c.toNat ∧ c.toNat ≤ 57 then some (c.toNat - 48)
  else if 97 ≤ c.toNat ∧ c.toNat ≤ 102 then some (c.toNat - 87)
  else if 65 ≤ c.toNat ∧ c.toNat ≤ 70 then some (c.toNat - 55)
  else none

/-- Decode a `\uXXXX` body: four hex digits at the head of the input. -/
def parseHex4 : List Char → Option Char
  | h1 :: h2 :: h3 :: h4 :: _ =>
    match parseHexDigitVal h1, parseHexDigitVal h2,
          parseHexDigitVal h3, parseHexDigitVal h4 with
    | some a, some b, some c2, some d =>
        some (Char.ofNat (((a * 16 + b) * 16 + c2) * 16 + d))
    | _, _, _, _ => none
  | _ => none

/-- Decode the escape following a backslash: the decoded character and how
many characters beyond the escape letter were consumed. -/
def unescAfterBackslash : List Char → Option (Char × Nat)
  | [] => none
  | e :: rest2 =>
    if e = '"' then some ('"', 0)
    else if e = '\\' then some ('\\', 0)
    else if e = 'n' then some ('\n', 0)
    else if e = 't' then some ('\t', 0)
    else if e = 'r' then some ('\r', 0)
    else if e = 'u' then
      match parseHex4 rest2 with
      | some ch => some (ch, 4)
      | none => none
    else none

/-- JSON string-literal body parser (after the opening quote); returns the
decoded string and the remainder after the closing quote. -/
def parseStrGo : List Char → List Char → Option (String × List Char)
  | [], _ => none
  | c :: rest, acc =>
    if c = '"' then some (String.mk acc.reverse, rest)
    else if c = '\\' then
      match unescAfterBackslash rest with
      | some (d, n) => parseStrGo (rest.drop (n + 1)) (d :: acc)
      | none => none
    else parseStrGo rest (c :: acc)
termination_by cs _ => cs.length
decreasing_by all_goals simp_wf <;> omega

/-- Value of a decimal digit character. -/
def digitVal (c : Char) : Nat := c.toNat - 48

/-- Consume a maximal run of decimal digits, folding into an accumulator. -/
def parseDigitsGo : List Char → Nat → Nat × List Char
  | [], acc => (acc, [])
  | c :: rest, acc =>
    if c.isDigit then parseDigitsGo rest (acc * 10 + digitVal c) else (acc, c :: rest)

/-- Does the input start with a decimal digit? -/
def headIsDigit : List Char → Bool
  | [] => false
  | c :: _ => c.isDigit

/-- Parse an optionally-signed decimal integer at the head of the input. -/
def parseIntAt : List Char → Option (Int × List Char)
  | [] => none
  | c :: rest =>
    if c = '-' then
      if headIsDigit rest then
        let p := parseDigitsGo rest 0
        some (-(p.1 : Int), p.2)
      else none
    else if c.isDigit then
      let p := parseDigitsGo (c :: rest) 0
      some ((p.1 : Int), p.2)
    else none

/-- Expect a fixed sequence of characters at the head of the input. -/
def expectChars : List Char → List Char → Option (List Char)
  | [], cs => some cs
  | _ :: _, [] => none
  | e :: es, c :: cs => if c = e then expectChars es cs else none

mutual

/-- Fuel-indexed JSON value parser over the printed grammar (every parser
consumes one unit of fuel on entry). -/
def parseVal : Nat → List Char → Option (Val × List Char)
  | 0, _ => none
  | fuel + 1, cs =>
    match cs with
    | [] => none
    | c :: rest =>
      if c = '"' then
        match parseStrGo rest [] with
        | some (s, r) => some (.str s, r)
        | none => none
      else if c = 'n' then
        match expectChars ['u', 'l', 'l'] rest with
        | some r => some (.null, r)
        | none => none
      else if c = 't' then
        match expectChars ['r', 'u', 'e'] rest with
        | some r => some (.bool true, r)
        | none => none
      else if c = 'f' then
        match expectChars ['a', 'l', 's', 'e'] rest with
        | some r => some (.bool false, r)
        | none => none
      else if c = '[' then parseArr fuel rest
      else if c = lbraceChar then parseObj fuel rest
      else
        match parseIntAt (c :: rest) with
        | some (n, r) => some (.num n, r)
        | none => none

/-- Parse the inside of an array (after `[`). -/
def parseArr : Nat → List Char → Option (Val × List Char)
  | 0, _ => none
  | fuel + 1, cs =>
    match cs with
    | [] => none
    | c :: r =>
      if c = ']' then some (.arr [], r)
      else
        match parseVal fuel (c :: r) with
        | some (v, r2) => parseArrTail fuel r2 [v]
        | none => none

/-- Parse `,value`* `]` accumulating array elements in order. -/
def parseArrTail : Nat → List Char → List Val → Option (Val × List Char)
  | 0, _, _ => none
  | fuel + 1, cs, acc =>
    match cs with
    | [] => none
    | c :: r =>
      if c = ']' then some (.arr acc, r)
      else if c = ',' then
        match parseVal fuel r with
        | some (v, r2) => parseArrTail fuel r2 (acc ++ [v])
        | none => none
      else none

/-- Parse one `"key":value` pair. -/
def parseKVAt : Nat → List Char → Option (String × Val × List Char)
  | 0, _ => none
  | fuel + 1, cs =>
    match cs with
    | [] => none
    | c :: rest =>
      if c = '"' then
        match parseStrGo rest [] with
        | some (k, r) =>
          match r with
          | ':' :: r2 =>
            match parseVal fuel r2 with
            | some (v, r3) => some (k, v, r3)
            | none => none
          | _ => none
        | none => none
      else none

/-- Parse the inside of an object (after the opening brace). -/
def parseObj : Nat → List Char → Option (Val × List Char)
  | 0, _ => none
  | fuel + 1, cs =>
    match cs with
    | [] => none
    | c :: r =>
      if c = rbraceChar then some (.obj [], r)
      else
        match parseKVAt fuel (c :: r) with
        | some (k, v, r2) => parseObjTail fuel r2 [(k, v)]
        | none => none

/-- Parse `,"key":value`* followed by the closing brace. -/
def parseObjTail : Nat → List Char → List (String × Val) → Option (Val × List Char)
  | 0, _, _ => none
  | fuel + 1, cs, acc =>
    match cs with
    | [] => none
    | c :: r =>
      if c = rbraceChar then some (.obj acc, r)
      else if c = ',' then
        match parseKVAt fuel r with
        | some (k, v, r2) => parseObjTail fuel r2 (acc ++ [(k, v)])
        | none => none
      else none

end

/-- `json.dumps`: serialize a `Val` to a string. -/
def dumps (v : Val) : String := String.mk (printVal v)

/-- `json.loads`: parse a string into a `Val`, raising (modelled as
`Except.error`) on malformed input. -/
def loads (s : String) : Except String Val :=
  match parseVal (3 * s.length + 3) s.data with
  | some (v, []) => .ok v
  | _ => .error "Expecting value"

mutual

/-- Parser fuel sufficient for a printed value (used in the round-trip proof). -/
def fsize : Val → Nat
  | .null => 1
  | .bool _ => 1
  | .num _ => 1
  | .str _ => 1
  | .arr [] => 2
  | .arr (x :: xs) => 2 + fsize x + fsizeL xs
  | .obj [] => 2
  | .obj (kv :: kvs) => 2 + fsize kv.2 + fsizeO kvs

/-- Fuel for the remaining elements of an array. -/
def fsizeL : List Val → Nat
  | [] => 1
  | y :: ys => 1 + fsize y + fsizeL ys

/-- Fuel for the remaining entries of an object. -/
def fsizeO : List (String × Val) → Nat
  | [] => 1
  | kv :: t => 2 + fsize kv.2 + fsizeO t

end

/-- The input does not begin with a decimal digit (so a preceding number
parse stops exactly at the boundary). -/
def headNotDigit : List Char → Prop
  | [] => True
  | c :: _ => ¬ c.isDigit = true

/-! ## `template_engine.py`: validation, export/import

`validate_template` raises `ValueError` on the first violated rule; the
embedding returns `Except.error` with the exception's message.  The Python
`in` and `[...]` operators on dynamically-typed values are modelled by
`pyIn` / `pyGetItem`, which also reproduce the `TypeError`/`KeyError`
behaviour on non-dict operands.
-/

/-- Is `needle` a contiguous substring of `hay` (Python `in` on strings)? -/
def containsSub (hay needle : List Char) : Bool :=
  match hay with
  | [] => needle.isEmpty
  | _ :: rest => needle.isPrefixOf hay || containsSub rest needle

/-- Python `k in v`: key membership for dicts, element membership for lists,
substring test for strings, `TypeError` otherwise. -/
def pyIn (k : String) (v : Val) : Except String Bool :=
  match v with
  | .obj kvs => .ok (dHasKey kvs k)
  | .arr xs => .ok (xs.any (fun x => x = Val.str k))
  | .str s => .ok (containsSub s.data k.data)
  | _ => .error "TypeError: argument is not iterable"

/-- Python `v[k]` for a string key: dict lookup (`KeyError` when absent),
`TypeError` for every non-dict operand. -/
def pyGetItem (v : Val) (k : String) : Except String Val :=
  match v with
  | .obj kvs =>
    match dget kvs k with
    | some x => .ok x
    | none => .error ("KeyError: " ++ k)
  | _ => .error "TypeError: value is not subscriptable"

/-- Loose model of Python `str(v)`, used only inside synthesized error
messages (no claim depends on its exact form). -/
def valStr : Val → String
  | .str s => s
  | .num n => toString n
  | .bool true => "True"
  | .bool false => "False"
  | .null => "None"
  | v => String.mk (printVal v)

/-- The four required top-level template fields, in the order the source
checks them. -/
def requiredFields : List String := ["metadata", "structure", "style", "formatting"]

/-- The `for field in required_fields` loop of `validate_template`. -/
def checkRequiredFields (template : Val) : List String → Except String Unit
  | [] => .ok ()
  | f :: rest => do
    let present ← pyIn f template
    if present then checkRequiredFields template rest
    else .error ("Missing required field: " ++ f)

/-- The `for field in required_section_fields` loop. -/
def checkSectionFields (i : Nat) (kvs : List (String × Val)) :
    List String → Except String Unit
  | [] => .ok ()
  | f :: rest =>
    if dHasKey kvs f then checkSectionFields i kvs rest
    else .error ("Section " ++ toString i ++ " missing required field: " ++ f)

/-- One iteration of the `for i, section in enumerate(sections)` loop:
shape checks plus duplicate-id detection against the accumulating
`section_ids` set (modelled as the list of ids seen so far; Python set
membership is equality-based); returns the extended set. -/
def checkOneSection (s : Val) (i : Nat) (seen : List Val) : Except String (List Val) :=
  match s with
  | .obj kvs => do
    let _ ← checkSectionFields i kvs ["id", "title", "order"]
    let idv := (dget kvs "id").getD .null
    if idv ∈ seen then .error ("Duplicate section ID: " ++ valStr idv)
    else .ok (seen ++ [idv])
  | .null => .error ("Section " ++ toString i ++ " must be a dictionary")
  | .bool _ => .error ("Section " ++ toString i ++ " must be a dictionary")
  | .num _ => .error ("Section " ++ toString i ++ " must be a dictionary")
  | .str _ => .error ("Section " ++ toString i ++ " must be a dictionary")
  | .arr _ => .error ("Section " ++ toString i ++ " must be a dictionary")

/-- The per-section validation loop. -/
def checkSections : List Val → Nat → List Val → Except String Bool
  | [], _, _ => .ok true
  | s :: rest, i, seen => do
    let seen2 ← checkOneSection s i seen
    checkSections rest (i + 1) seen2

/-- The rest of `validate_template` once `template["structure"]` has been
read: the `sections` presence, type and per-section checks. -/
def validateStructure (structureV : Val) : Except String Bool := do
  let hasSec ← pyIn "sections" structureV
  if ¬ hasSec then .error "Template must have sections"
  else do
    let sectionsV ← pyGetItem structureV "sections"
    match sectionsV with
    | .arr sections =>
      if sections.length = 0 then .error "Template must have at least one section"
      else checkSections sections 0 []
    | _ => .error "Template must have at least one section"

/-- `TemplateEngine.validate_template`. -/
def validate_template (template : Val) : Except String Bool := do
  let _ ← checkRequiredFields template requiredFields
  let structureV ← pyGetItem template "structure"
  validateStructure structureV

/-- Declarative reading of the validation rules, written from the spec:
top-level fields present, `structure.sections` a non-empty list, every
section a dict carrying `id`, `title`, `order`, and no duplicate id. -/
def sectionRuleOk (s : Val) : Bool :=
  match s with
  | .obj kvs => dHasKey kvs "id" && dHasKey kvs "title" && dHasKey kvs "order"
  | .null => false
  | .bool _ => false
  | .num _ => false
  | .str _ => false
  | .arr _ => false

/-- The id of a section value (sections are dicts carrying `id`). -/
def sectionIdOf (s : Val) : Val :=
  match s with
  | .obj kvs => (dget kvs "id").getD .null
  | .null => .null
  | .bool _ => .null
  | .num _ => .null
  | .str _ => .null
  | .arr _ => .null

/-- Boolean list-distinctness check. -/
def nodupB : List Val → Bool
  | [] => true
  | x :: xs => ¬ (x ∈ xs) && nodupB xs

/-- Declarative reading of the structure rules: `structure` is a dict whose
`sections` is a non-empty list of rule-satisfying sections with distinct ids. -/
def structRules (sv : Val) : Bool :=
  match sv with
  | .obj skvs =>
    match dget skvs "sections" with
    | some (.arr sections) =>
      ¬ sections.isEmpty && sections.all sectionRuleOk &&
        nodupB (sections.map sectionIdOf)
    | _ => false
  | .null => false
  | .bool _ => false
  | .num _ => false
  | .str _ => false
  | .arr _ => false

/-- Declarative validation predicate (spec reading), to compare with
`validate_template`. -/
def rulesOk (t : Val) : Bool :=
  match t with
  | .obj kvs =>
    requiredFields.all (fun f => dHasKey kvs f) &&
    (match dget kvs "structure" with
     | some sv => structRules sv
     | none => false)
  | .null => false
  | .bool _ => false
  | .num _ => false
  | .str _ => false
  | .arr _ => false

/-- `TemplateEngine.export_template`: `json.dumps(template, indent=2)`. -/
def export_template (template : Val) : String := dumps template

/-- `TemplateEngine.import_template`: `json.loads` then `validate_template`,
returning the parsed template. -/
def import_template (template_json : String) : Except String Val := do
  let template ← loads template_json
  let _ ← validate_template template
  .ok template

/-! ## `template_engine.py`: section operations

These operate on `template["structure"]["sections"]`, a Python list of
section dicts; a section dict is a `Sect`.  The surrounding template
object is untouched by these operations, so the embedding takes and
returns the sections list.
-/

/-- A section dict. -/
abbrev Sect := List (String × Val)

/-- `section['id']` (sections reaching these operations carry an id;
a missing id would raise `KeyError` in Python, and the theorems assume
presence explicitly). -/
def sectionIdVal (s : Sect) : Val := (dget s "id").getD .null

/-- Does section `s` have id `sid`? -/
def sectIdIs (s : Sect) (sid : String) : Bool := sectionIdVal s = Val.str sid

/-- `TemplateEngine.remove_section`: keep the sections whose id differs. -/
def remove_section (sections : List Sect) (section_id : String) : List Sect :=
  sections.filter (fun s => ¬ sectIdIs s section_id)

/-- `TemplateEngine.update_section`: `dict.update` the first section whose
id matches, then stop (the loop breaks). -/
def update_section (sections : List Sect) (section_id : String)
    (updates : List (String × Val)) : List Sect :=
  match sections with
  | [] => []
  | s :: rest =>
    if sectIdIs s section_id then dupdate s updates :: rest
    else s :: update_section rest section_id updates

/-- Does any section carry id `sid` (membership in the comprehension-built
`section_dict`)? -/
def hasSectionWithId (sections : List Sect) (sid : String) : Bool :=
  sections.any (fun s => sectIdIs s sid)

/-- The dict comprehension `{s['id']: s for s in sections}` keeps, for each
id, the LAST section bearing it. -/
def lastSectionWithId (sections : List Sect) (sid : String) : Sect :=
  ((sections.filter (fun s => sectIdIs s sid)).getLast?).getD []

/-- Index of the last occurrence of `x` in `l` (meaningful when `x ∈ l`). -/
def lastIdxOf (l : List String) (x : String) : Nat :=
  match l with
  | [] => 0
  | _ :: t => if x ∈ t then lastIdxOf t x + 1 else 0

/-- `TemplateEngine.reorder_sections`, as the final state of the Python
loop: the loop appends, per occurrence of a known id in `new_order`, a
reference to the single dict entry for that id, and mutates that shared
entry's `order` each time — so after the loop every appended copy shows
`order` = 1 + the index of the id's LAST occurrence in `new_order`. -/
def reorder_sections (sections : List Sect) (new_order : List String) : List Sect :=
  new_order.filterMap (fun sid =>
    if hasSectionWithId sections sid then
      some (dset (lastSectionWithId sections sid) "order"
        (.num ((lastIdxOf new_order sid : Int) + 1)))
    else none)

/-- Sort key `lambda x: x['order']` (the claims constrain templates whose
sections carry numeric `order`; Python would raise on a missing key). -/
def sectOrderKey (s : Sect) : Int :=
  match dget s "order" with
  | some (.num n) => n
  | _ => 0

/-- `TemplateEngine.add_section`: fill defaults (`id`, `order`, `required`,
`content_type`), append, and stable-sort by `order` ascending (Python
`list.sort` is stable; `List.insertionSort` with a strict key comparison is
the stable sort on this key). -/
def add_section (sections : List Sect) (sect : Sect) : List Sect :=
  let s1 := if dHasKey sect "id" then sect
    else dset sect "id" (.str ("section_" ++ toString (sections.length + 1)))
  let s2 := if dHasKey s1 "order" then s1
    else dset s1 "order" (.num ((sections.length : Int) + 1))
  let s3 := if dHasKey s2 "required" then s2 else dset s2 "required" (.bool false)
  let s4 := if dHasKey s3 "content_type" then s3 else dset s3 "content_type" (.str "text")
  List.insertionSort (fun a b => sectOrderKey a < sectOrderKey b) (sections ++ [s4])

/-! ## `ai_service.py`: citation extraction and content formatting -/

/-- A citation record as built by `_extract_citations`. -/
structure Citation where
  source : String
  location : String
  full_citation : String
  deriving Repr, DecidableEq

/-- Scanner state machine equivalent to `re.findall(r'\[([^\]]+)\]', text)`:
outside a bracket, a `[` opens a candidate token; inside, a `]` closes it
(emitting it when non-empty, matching the `+` in the pattern) and every
other character extends it.  A `[` with no later `]` never completes a
match, and an immediately-closed `[]` is skipped — exactly the regex's
non-overlapping, left-to-right matches. -/
def bracketGo : List Char → Option (List Char) → List (List Char)
  | [], _ => []
  | c :: rest, none => if c = '[' then bracketGo rest (some []) else bracketGo rest none
  | c :: rest, some acc =>
    if c = ']' then
      if acc.isEmpty then bracketGo rest none
      else acc.reverse :: bracketGo rest none
    else bracketGo rest (some (c :: acc))

/-- All tokens matched by the citation pattern, in text order. -/
def findallCitationTokens (cs : List Char) : List (List Char) := bracketGo cs none

/-- `s.split(ch, 1)`: the parts before and after the first occurrence of
`ch` (meaningful when `ch` occurs). -/
def breakAtChar (c : Char) : List Char → List Char × List Char
  | [] => ([], [])
  | x :: rest =>
    if x = c then ([], rest)
    else
      let p := breakAtChar c rest
      (x :: p.1, p.2)

/-- `str.strip()`: drop leading and trailing whitespace. -/
def stripChars (cs : List Char) : List Char :=
  ((cs.dropWhile Char.isWhitespace).reverse.dropWhile Char.isWhitespace).reverse

/-- `str.strip()` on a `String`. -/
def pyStrip (s : String) : String := String.mk (stripChars s.data)

/-- Build the citation dict for one matched token containing a colon. -/
def mkCitation (tok : List Char) : Citation :=
  let p := breakAtChar ':' tok
  { source := pyStrip (String.mk p.1)
    location := pyStrip (String.mk p.2)
    full_citation := String.mk tok }

/-- The `for match in matches` loop of `_extract_citations`. -/
def extractCitationsGo : List (List Char) → List Citation → List Citation
  | [], acc => acc
  | tok :: rest, acc =>
    if tok.contains ':' then extractCitationsGo rest (acc ++ [mkCitation tok])
    else extractCitationsGo rest acc

/-- `AIService._extract_citations`. -/
def extract_citations (text : String) : List Citation :=
  extractCitationsGo (findallCitationTokens text.data) []

/-- A generated section body: a raw string (`text`) or a list of items
(`list`), matching the two runtime types `_format_content` returns. -/
inductive ContentVal where
  | txt (s : String)
  | items (l : List String)
  deriving Repr, DecidableEq

/-- The accumulating loop behind `content.split('\n')`. -/
def splitLinesGo : List Char → List Char → List String
  | [], acc => [String.mk acc.reverse]
  | c :: rest, acc =>
    if c = '\n' then String.mk acc.reverse :: splitLinesGo rest []
    else splitLinesGo rest (c :: acc)

/-- `content.split('\n')` (Python semantics: `"".split('\n') == [""]`). -/
def pySplitLines (s : String) : List String := splitLinesGo s.data []

/-- One iteration of the `_format_content` list loop: strip the line, keep
bullet lines (`-`, `•`, `*`) minus their first character, and keep lines
whose first character is a digit and which contain a `.` anywhere, taking
the part after the first `.`; both stripped. -/
def formatListLine (line : String) : Option String :=
  match stripChars line.data with
  | [] => none
  | c :: restl =>
    if c = '-' ∨ c = '•' ∨ c = '*' then
      some (String.mk (stripChars restl))
    else if c.isDigit ∧ (c :: restl).contains '.' then
      some (String.mk (stripChars (breakAtChar '.' (c :: restl)).2))
    else none

/-- The accumulation loop of `_format_content` for `content_type == "list"`. -/
def formatListGo : List String → List String → List String
  | [], acc => acc
  | line :: rest, acc =>
    match formatListLine line with
    | some item => formatListGo rest (acc ++ [item])
    | none => formatListGo rest acc

/-- `_format_content` body for list content: collected items, or the raw
text as a single item when no line matched. -/
def format_content_list (content : String) : List String :=
  let items := formatListGo (pySplitLines content) []
  if items = [] then [content] else items

/-- `AIService._format_content`. -/
def format_content (content : String) (content_type : String) : ContentVal :=
  if content_type = "list" then .items (format_content_list content) else .txt content

/-- The claim's reading of the list-item rule (for comparison): a line is
kept when its stripped form starts with `-`, `•`, `*`, or with a leading
digit immediately followed by `.`; other lines are discarded. -/
def formatListLineClaim (line : String) : Option String :=
  match stripChars line.data with
  | [] => none
  | c :: restl =>
    if c = '-' ∨ c = '•' ∨ c = '*' then
      some (String.mk (stripChars restl))
    else if c.isDigit ∧ restl.head? = some '.' then
      some (String.mk (stripChars (restl.drop 1)))
    else none

/-- List formatting as the claim states it. -/
def format_list_claim (content : String) : List String :=
  let items := (pySplitLines content).filterMap formatListLineClaim
  if items = [] then [content] else items

/-- The amended per-line rule, stated declaratively (filter/map form) for
comparison with the loop implementation. -/
def format_list_amended (content : String) : List String :=
  let items := (pySplitLines content).filterMap formatListLine
  if items = [] then [content] else items

/-! ## `ai_service.py`: generation

`generate_content` iterates the template's sections in list order and
performs one fallible AI call per section.  The AI backend is embedded as
an oracle `Nat → Except String String` giving the outcome of the `i`-th
call; the prompt string (built from the section's title/instructions, the
assembled context and the custom instructions) only flows into that
external call, so context assembly and prompt construction do not appear
as separate definitions.  `currentModel` / `availableModels` stand for
`get_current_model_name()` / `list_available_models()` (both swallow their
own errors in the source and return strings).
-/

/-- A template section as read by `generate_content`
(`section["id"]`, `section["title"]`, `section.get("instructions", "")`,
`section.get("content_type", "text")`). -/
structure TSection where
  id : String
  title : String
  instructions : String := ""
  content_type : String := "text"
  deriving Repr, DecidableEq

/-- One generated section entry. -/
structure GenSection where
  title : String
  content : ContentVal
  citations : List Citation
  word_count : Nat
  type : String
  deriving Repr, DecidableEq

/-- The full generated-content document (`metadata` fields inlined). -/
structure GeneratedContent where
  generated_at : String
  template_name : String
  sources_used : List String
  sections : List (String × GenSection)
  deriving Repr, DecidableEq

/-- `text.split()`: whitespace-tokenized words. -/
def pySplitWs (s : String) : List String :=
  (s.split Char.isWhitespace).filter (fun w => w ≠ "")

/-- `len(generated_text.split())`. -/
def countWords (s : String) : Nat := (pySplitWs s).length

/-- Friendlier-message rewriting of a generation failure (the `except`
branch of `generate_content`). -/
def transformGenError (e : String) (currentModel : String)
    (availableModels : List String) : String :=
  if containsSub e.data "404".data ∧ containsSub e.data "models".data then
    "Model not found. Current model: " ++ currentModel ++ ". Available models: " ++
      String.intercalate ", " (availableModels.take 3)
  else if containsSub e.data "API key".data then
    "Invalid or missing API key. Please check your GEMINI_API_KEY environment variable."
  else e

/-- Section entry built on a successful AI call. -/
def mkOkSection (text : String) (s : TSection) : GenSection :=
  { title := s.title
    content := format_content text s.content_type
    citations := extract_citations text
    word_count := countWords text
    type := s.content_type }

/-- Section entry built when the AI call raises: synthesized error string,
no citations, zero word count. -/
def mkErrSection (e : String) (currentModel : String) (availableModels : List String)
    (s : TSection) : GenSection :=
  { title := s.title
    content := .txt ("Error generating content: " ++ transformGenError e currentModel availableModels)
    citations := []
    word_count := 0
    type := s.content_type }

/-- The per-section generation loop, writing into the insertion-ordered
`generated_content["sections"]` dict. -/
def generateGo (oracle : Nat → Except String String) (currentModel : String)
    (availableModels : List String) :
    List TSection → Nat → List (String × GenSection) → List (String × GenSection)
  | [], _, acc => acc
  | s :: rest, i, acc =>
    let entry :=
      match oracle i with
      | .ok text => mkOkSection text s
      | .error e => mkErrSection e currentModel availableModels s
    generateGo oracle currentModel availableModels rest (i + 1) (dset acc s.id entry)

/-- `AIService.generate_content`. -/
def generate_content (templateName : Option String) (tsections : List TSection)
    (sources : List String) (oracle : Nat → Except String String)
    (currentModel : String) (availableModels : List String) : GeneratedContent :=
  { generated_at := "2024-01-01T00:00:00Z"
    template_name := templateName.getD "Unknown"
    sources_used := sources
    sections := generateGo oracle currentModel availableModels tsections 0 [] }

/-! ## `ai_service.py`: refinement fallback -/

/-- The `except` branch of `refine_content`:
`current_content["metadata"]["refinement_error"] = str(e)` then return the
(mutated) input.  Reproduces `KeyError`/`TypeError` when the input has no
dict-valued `metadata`. -/
def refineFallback (cur : Val) (msg : String) : Except String Val :=
  match cur with
  | .obj kvs =>
    match dget kvs "metadata" with
    | some (.obj md) =>
      .ok (.obj (dset kvs "metadata" (.obj (dset md "refinement_error" (.str msg)))))
    | some _ => .error "TypeError: value does not support item assignment"
    | none => .error "KeyError: metadata"
  | _ => .error "TypeError: value does not support item assignment"

/-- `AIService.refine_content`: one AI call; on success its text is passed
to `json.loads` and the parsed value is returned WITHOUT any structural
check; only a raised exception (AI failure or JSON parse failure) takes
the fallback path. -/
def refine_content (current_content : Val) (oracle : Except String String) :
    Except String Val :=
  match oracle with
  | .ok text =>
    match loads text with
    | .ok refined => .ok refined
    | .error e => refineFallback current_content e
  | .error e => refineFallback current_content e

/-- The spec's `GeneratedContent` shape (dict with dict-valued `metadata`
and `sections`), used to express "parses as the expected structure". -/
def isGeneratedContentShape (v : Val) : Bool :=
  match v with
  | .obj kvs =>
    (match dget kvs "metadata" with
     | some (.obj _) => true
     | _ => false) &&
    (match dget kvs "sections" with
     | some (.obj _) => true
     | _ => false)
  | _ => false

/-! ## `ai_service.py`: content-quality validation

Scores are rationals (`validate_content_quality` divides two Python ints,
giving a float; the bound claims are value-range facts that the rational
model states exactly).
-/

/-- The section fields `validate_content_quality` reads. -/
structure QSection where
  title : String
  content : ContentVal
  citations : List Citation
  deriving Repr, DecidableEq

/-- Single-quote character (39). -/
def squoteChar : Char := Char.ofNat 39

/-- Loose model of Python `str()` of a section's content: a string is
itself; a list prints its items single-quoted (only message text depends
on this). -/
def pyStrContent : ContentVal → String
  | .txt s => s
  | .items l =>
    "[" ++ String.intercalate ", "
      (l.map (fun s => String.singleton squoteChar ++ s ++ String.singleton squoteChar)) ++ "]"

/-- The fixed actionability keyword list. -/
def actionWords : List String :=
  ["recommend", "suggest", "propose", "implement", "consider", "should", "must"]

/-- Case-insensitive keyword containment (`word in section_text.lower()`;
the keywords are lower-case). -/
def lowerContains (hay needle : String) : Bool :=
  containsSub hay.toLower.data needle.data

/-- Issues accumulated by the validation loop: sections with no citations
but more than 100 characters of content text. -/
def qIssues (sections : List QSection) : List String :=
  sections.filterMap (fun s =>
    if s.citations.length = 0 ∧ (pyStrContent s.content).length > 100 then
      some ("Section " ++ String.singleton squoteChar ++ s.title ++
        String.singleton squoteChar ++ " lacks citations")
    else none)

/-- Suggestions accumulated by the validation loop: sections whose text
contains no actionability keyword. -/
def qSuggestions (sections : List QSection) : List String :=
  sections.filterMap (fun s =>
    if ¬ actionWords.any (fun w => lowerContains (pyStrContent s.content) w) then
      some ("Section " ++ String.singleton squoteChar ++ s.title ++
        String.singleton squoteChar ++ " could be more actionable")
    else none)

/-- `min(total_citations / max(total_sections, 1) * 50, 50)`. -/
def citationScoreQ (totalCitations totalSections : Nat) : ℚ :=
  min ((totalCitations : ℚ) / (max totalSections 1 : Nat) * 50) 50

/-- `30 if total_sections >= 3 else 15`. -/
def structureScoreQ (totalSections : Nat) : ℚ :=
  if totalSections ≥ 3 then 30 else 15

/-- `20 if no issues else 10`. -/
def qualityScoreQ (issues : List String) : ℚ :=
  if issues.length = 0 then 20 else 10

/-- The validation result (`overall_score`, `issues`, `suggestions`,
`citations_count`). -/
structure QualityResult where
  overall_score : ℚ
  issues : List String
  suggestions : List String
  citations_count : Nat
  deriving Repr

/-- `AIService.validate_content_quality`. -/
def validate_content_quality (sections : List QSection) : QualityResult :=
  let totalCitations := (sections.map (fun s => s.citations.length)).sum
  let totalSections := sections.length
  let issues := qIssues sections
  { overall_score :=
      citationScoreQ totalCitations totalSections + structureScoreQ totalSections +
        qualityScoreQ issues
    issues := issues
    suggestions := qSuggestions sections
    citations_count := totalCitations }

/-! ## `output_generator.py`: the three renderers

Each renderer is embedded as the ordered list of emission events it
performs on its output object (headings, paragraphs, bullets, slides);
file I/O and visual styling are outside the model.  All three iterate
`template['structure']['sections']` and skip ids absent from
`content['sections']`.
-/

/-- One renderer emission event. -/
inductive REv where
  | docTitle (s : String)
  | metaLine (s : String)
  | heading (s : String)
  | para (s : String)
  | bullet (s : String)
  | srcLabel
  | srcBullet (s : String)
  | spacer
  | slide (titleText : String)
  deriving Repr, DecidableEq

/-- Citation block emitted by the docx/pdf renderers when the section has
any citations. -/
def citeEvents (citations : List Citation) : List REv :=
  if citations.isEmpty then []
  else .srcLabel :: citations.map (fun c => .srcBullet ("• " ++ c.full_citation))

/-- Section body: bulleted items when the template says `list` AND the
content value is a list; otherwise one paragraph of `str(content)`. -/
def bodyEvents (content_type : String) (cv : ContentVal) : List REv :=
  if content_type = "list" then
    match cv with
    | .items l => l.map (fun it => .bullet ("• " ++ it))
    | .txt t => [.para t]
  else [.para (pyStrContent cv)]

/-- Events one template section contributes to the docx document. -/
def docxSectionEvents (contentSections : List (String × GenSection)) (s : TSection) :
    List REv :=
  match dget contentSections s.id with
  | none => []
  | some sc =>
    .heading s.title :: bodyEvents s.content_type sc.content ++
      citeEvents sc.citations ++ [.para ""]

/-- The docx section loop. -/
def docxGo (contentSections : List (String × GenSection)) :
    List TSection → List REv → List REv
  | [], acc => acc
  | s :: rest, acc => docxGo contentSections rest (acc ++ docxSectionEvents contentSections s)

/-- `OutputGenerator._generate_docx` as its event trace. -/
def generate_docx (content : GeneratedContent) (tsections : List TSection)
    (templateName : String) : List REv :=
  docxGo content.sections tsections
    [.docTitle templateName,
     .metaLine ("Generated: " ++ content.generated_at),
     .metaLine ("Sources: " ++ String.intercalate ", " content.sources_used),
     .para ""]

/-- Events one template section contributes to the pdf story. -/
def pdfSectionEvents (contentSections : List (String × GenSection)) (s : TSection) :
    List REv :=
  match dget contentSections s.id with
  | none => []
  | some sc =>
    .heading s.title :: bodyEvents s.content_type sc.content ++
      citeEvents sc.citations ++ [.spacer]

/-- The pdf section loop. -/
def pdfGo (contentSections : List (String × GenSection)) :
    List TSection → List REv → List REv
  | [], acc => acc
  | s :: rest, acc => pdfGo contentSections rest (acc ++ pdfSectionEvents contentSections s)

/-- `OutputGenerator._generate_pdf` as its event trace. -/
def generate_pdf (content : GeneratedContent) (tsections : List TSection)
    (templateName : String) : List REv :=
  pdfGo content.sections tsections
    [.docTitle templateName, .spacer,
     .metaLine ("Generated: " ++ content.generated_at),
     .metaLine ("Sources: " ++ String.intercalate ", " content.sources_used),
     .spacer]

/-- Body paragraphs on a pptx slide (one paragraph per item for list
content, a single paragraph otherwise). -/
def pptxBodyEvents (content_type : String) (cv : ContentVal) : List REv :=
  if content_type = "list" then
    match cv with
    | .items l => l.map (fun it => .para ("• " ++ it))
    | .txt t => [.para t]
  else [.para (pyStrContent cv)]

/-- Events one template section contributes to the pptx deck.  NOTE the
citation handling in the source: inside `if citations:` only the
`len(citations) > 3` case emits anything (a dedicated sources slide);
1–3 citations produce no output at all. -/
def pptxSectionEvents (contentSections : List (String × GenSection)) (s : TSection) :
    List REv :=
  match dget contentSections s.id with
  | none => []
  | some sc =>
    .slide s.title :: pptxBodyEvents s.content_type sc.content ++
      (if sc.citations.isEmpty then []
       else if sc.citations.length > 3 then
         .slide (s.title ++ " - Sources") ::
           sc.citations.map (fun c => .srcBullet ("• " ++ c.full_citation))
       else [])

/-- The pptx section loop. -/
def pptxGo (contentSections : List (String × GenSection)) :
    List TSection → List REv → List REv
  | [], acc => acc
  | s :: rest, acc => pptxGo contentSections rest (acc ++ pptxSectionEvents contentSections s)

/-- `OutputGenerator._generate_pptx` as its event trace. -/
def generate_pptx (content : GeneratedContent) (tsections : List TSection)
    (templateName : String) : List REv :=
  pptxGo content.sections tsections
    [.slide templateName,
     .metaLine ("Generated: " ++ content.generated_at)]

/-- Is an event part of a citations block? -/
def isCiteEvent : REv → Bool
  | .srcLabel => true
  | .srcBullet _ => true
  | _ => false

/-- The claim's reading of `reorder_sections` (spec side, for comparison):
walk the supplied id list, keep the section carrying each id (if any), and
assign `order` = the id's 1-based position in the supplied list. -/
def reorderSpecGo (sections : List Sect) : List String → Nat → List Sect
  | [], _ => []
  | sid :: rest, k =>
    match sections.find? (fun s => sectIdIs s sid) with
    | some s => dset s "order" (.num (k : Int)) :: reorderSpecGo sections rest (k + 1)
    | none => reorderSpecGo sections rest (k + 1)

/-- `reorder_sections` as the claim states it. -/
def reorder_sections_spec (sections : List Sect) (new_order : List String) : List Sect :=
  reorderSpecGo sections new_order 1

/-- The id `add_section` gives the inserted section: the one supplied, or
the synthesized `section_<n+1>`. -/
def addSectionEffectiveId (sections : List Sect) (sect : Sect) : Val :=
  if dHasKey sect "id" then sectionIdVal sect
  else .str ("section_" ++ toString (sections.length + 1))

/-- The entry `generate_content` writes for the `i`-th section. -/
def mkEntry (oracle : Nat → Except String String) (currentModel : String)
    (availableModels : List String) (i : Nat) (s : TSection) : GenSection :=
  match oracle i with
  | .ok text => mkOkSection text s
  | .error e => mkErrSection e currentModel availableModels s

/-- The association list `generate_content` produces for a duplicate-free
template, written directly. -/
def genEntryList (oracle : Nat → Except String String) (currentModel : String)
    (availableModels : List String) : List TSection → Nat → List (String × GenSection)
  | [], _ => []
  | s :: rest, i =>
    (s.id, mkEntry oracle currentModel availableModels i s) ::
      genEntryList oracle currentModel availableModels rest (i + 1)

/-- A well-formed current-content object (dict-valued `metadata` and
`sections`) used to exercise `refine_content`. -/
def c4cur : List (String × Val) :=
  [("metadata", .obj [("generated_at", .str "t")]), ("sections", .obj [])]

/-- A one-section template used to exercise the renderers. -/
def c7sect : TSection := ⟨"x", "X", "", "text"⟩

/-- Two citations (a non-empty list of at most three). -/
def c7cits : List Citation := [⟨"S", "p1", "S: p1"⟩, ⟨"S", "p2", "S: p2"⟩]

/-- Generated content whose single section carries `c7cits`. -/
def c7content : GeneratedContent :=
  { generated_at := "t"
    template_name := "T"
    sources_used := ["f"]
    sections := [("x", ⟨"X", .txt "body", c7cits, 2, "text"⟩)] }

/-! # Lemmas and claim theorems -/

/-! ## Characters and digits -/

theorem toNat_ofNat_lt (n : Nat) (h : n < 55296) : (Char.ofNat n).toNat = n := by
  unfold Char.ofNat
  split
  · rfl
  · rename_i hv
    exact absurd (Or.inl (by omega)) hv

theorem isDigit_eq (c : Char) : c.isDigit = (48 ≤ c.toNat && c.toNat ≤ 57) := by
  simp [Char.isDigit, Char.le_def, Char.toNat]
  rfl

theorem digitChar_isDigit (d : Nat) (h : d < 10) : (Char.ofNat (48 + d)).isDigit = true := by
  rw [isDigit_eq, toNat_ofNat_lt _ (by omega)]
  simp
  omega

theorem digitVal_digitChar (d : Nat) (h : d < 10) : digitVal (Char.ofNat (48 + d)) = d := by
  unfold digitVal
  rw [toNat_ofNat_lt _ (by omega)]
  omega

theorem digit_ne_delims (c : Char) (hd : c.isDigit = true) :
    c ≠ '"' ∧ c ≠ 'n' ∧ c ≠ 't' ∧ c ≠ 'f' ∧ c ≠ '[' ∧ c ≠ lbraceChar ∧
      c ≠ ']' ∧ c ≠ rbraceChar ∧ c ≠ ',' ∧ c ≠ '-' := by
  rw [isDigit_eq] at hd
  simp at hd
  refine ⟨?_, ?_, ?_, ?_, ?_, ?_, ?_, ?_, ?_, ?_⟩ <;>
    (intro h; subst h; revert hd; decide)

/-! ## Decimal printing round trip -/

theorem natDigitsGo_acc (n : Nat) :
    ∀ acc, natDigitsGo n acc = natDigitsGo n [] ++ acc := by
  induction n using Nat.strong_induction_on with
  | _ n ih =>
    intro acc
    match n with
    | 0 => simp [natDigitsGo]
    | m + 1 =>
      rw [natDigitsGo, natDigitsGo]
      rw [ih ((m + 1) / 10) (Nat.div_lt_self (by omega) (by omega))
            (Char.ofNat (48 + (m + 1) % 10) :: acc),
          ih ((m + 1) / 10) (Nat.div_lt_self (by omega) (by omega))
            [Char.ofNat (48 + (m + 1) % 10)]]
      simp

theorem natDigitsGo_all_digit (n : Nat) :
    ∀ c ∈ natDigitsGo n [], c.isDigit = true := by
  induction n using Nat.strong_induction_on with
  | _ n ih =>
    intro c hc
    match n with
    | 0 => simp [natDigitsGo] at hc
    | m + 1 =>
      rw [natDigitsGo, natDigitsGo_acc] at hc
      rcases List.mem_append.mp hc with h | h
      · exact ih ((m + 1) / 10) (Nat.div_lt_self (by omega) (by omega)) c h
      · simp at h
        subst h
        exact digitChar_isDigit _ (by omega)

theorem natDigitsGo_ne_nil (n : Nat) (h : n ≠ 0) : natDigitsGo n [] ≠ [] := by
  match n with
  | m + 1 =>
    rw [natDigitsGo, natDigitsGo_acc]
    simp

theorem foldl_natDigitsGo (n : Nat) :
    List.foldl (fun a c => a * 10 + digitVal c) 0 (natDigitsGo n []) = n := by
  induction n using Nat.strong_induction_on with
  | _ n ih =>
    match n with
    | 0 => simp [natDigitsGo]
    | m + 1 =>
      rw [natDigitsGo, natDigitsGo_acc, List.foldl_append,
        ih ((m + 1) / 10) (Nat.div_lt_self (by omega) (by omega))]
      simp [digitVal_digitChar ((m + 1) % 10) (by omega)]
      omega

theorem natChars_all_digit (n : Nat) : ∀ c ∈ natChars n, c.isDigit = true := by
  intro c hc
  unfold natChars at hc
  split at hc
  · simp at hc
    subst hc
    decide
  · exact natDigitsGo_all_digit n c hc

theorem natChars_ne_nil (n : Nat) : natChars n ≠ [] := by
  unfold natChars
  split
  · simp
  · exact natDigitsGo_ne_nil n (by assumption)

theorem natChars_head_digit (n : Nat) :
    ∃ c cs, natChars n = c :: cs ∧ c.isDigit = true := by
  match h : natChars n with
  | [] => exact absurd h (natChars_ne_nil n)
  | c :: cs =>
    exact ⟨c, cs, rfl, natChars_all_digit n c (by rw [h]; simp)⟩

theorem foldl_natChars (n : Nat) :
    List.foldl (fun a c => a * 10 + digitVal c) 0 (natChars n) = n := by
  unfold natChars
  split
  · rename_i h
    subst h
    decide
  · exact foldl_natDigitsGo n

theorem parseDigitsGo_append (ds : List Char) (hds : ∀ c ∈ ds, c.isDigit = true) :
    ∀ rest a, headNotDigit rest →
      parseDigitsGo (ds ++ rest) a =
        (List.foldl (fun x c => x * 10 + digitVal c) a ds, rest) := by
  induction ds with
  | nil =>
    intro rest a h
    cases rest with
    | nil => rfl
    | cons c t =>
      simp only [headNotDigit] at h
      simp only [List.nil_append, parseDigitsGo, List.foldl]
      rw [if_neg h]
  | cons d ds ih =>
    intro rest a h
    simp only [List.cons_append, parseDigitsGo]
    rw [if_pos (hds d (by simp))]
    rw [List.append_eq, ih (fun c hc => hds c (by simp [hc])) rest _ h]
    simp [List.foldl]

theorem parseDigitsGo_natChars (n : Nat) (rest : List Char) (h : headNotDigit rest) :
    parseDigitsGo (natChars n ++ rest) 0 = (n, rest) := by
  rw [parseDigitsGo_append (natChars n) (natChars_all_digit n) rest 0 h, foldl_natChars]

theorem intChars_head (n : Int) :
    ∃ c cs, intChars n = c :: cs ∧ (c = '-' ∨ c.isDigit = true) := by
  unfold intChars
  split
  · exact ⟨'-', natChars n.natAbs, rfl, Or.inl rfl⟩
  · obtain ⟨c, cs, hc, hd⟩ := natChars_head_digit n.natAbs
    exact ⟨c, cs, hc, Or.inr hd⟩

theorem parseIntAt_intChars (n : Int) (rest : List Char) (h : headNotDigit rest) :
    parseIntAt (intChars n ++ rest) = some (n, rest) := by
  unfold intChars
  split
  · rename_i hneg
    obtain ⟨c, cs, hc, hd⟩ := natChars_head_digit n.natAbs
    have hsplit : natChars n.natAbs ++ rest = c :: (cs ++ rest) := by rw [hc]; simp
    rw [List.cons_append, parseIntAt, if_pos rfl, hsplit]
    have hhead : headIsDigit (c :: (cs ++ rest)) = true := by
      simp [headIsDigit, hd]
    rw [if_pos hhead, ← hsplit, parseDigitsGo_natChars n.natAbs rest h]
    simp
    rw [abs_of_neg hneg]
    omega
  · rename_i hpos
    obtain ⟨c, cs, hc, hd⟩ := natChars_head_digit n.natAbs
    have hsplit : natChars n.natAbs ++ rest = c :: (cs ++ rest) := by rw [hc]; simp
    rw [hsplit, parseIntAt]
    have hne : c ≠ '-' := (digit_ne_delims c hd).2.2.2.2.2.2.2.2.2
    rw [if_neg hne, if_pos hd, ← hsplit, parseDigitsGo_natChars n.natAbs rest h]
    simp
    omega

/-! ## String-escape round trip -/

theorem parseHexDigitVal_hexDigitChar (k : Nat) (h : k < 16) :
    parseHexDigitVal (hexDigitChar k) = some k := by
  interval_cases k <;> decide

theorem unesc_quote (t : List Char) : unescAfterBackslash ('"' :: t) = some ('"', 0) := by
  rw [unescAfterBackslash, if_pos rfl]

theorem unesc_bs (t : List Char) : unescAfterBackslash ('\\' :: t) = some ('\\', 0) := by
  rw [unescAfterBackslash, if_neg (by decide), if_pos rfl]

theorem unesc_n (t : List Char) : unescAfterBackslash ('n' :: t) = some ('\n', 0) := by
  rw [unescAfterBackslash, if_neg (by decide), if_neg (by decide), if_pos rfl]

theorem unesc_t (t : List Char) : unescAfterBackslash ('t' :: t) = some ('\t', 0) := by
  rw [unescAfterBackslash, if_neg (by decide), if_neg (by decide), if_neg (by decide),
    if_pos rfl]

theorem unesc_r (t : List Char) : unescAfterBackslash ('r' :: t) = some ('\r', 0) := by
  rw [unescAfterBackslash, if_neg (by decide), if_neg (by decide), if_neg (by decide),
    if_neg (by decide), if_pos rfl]

theorem parseHex4_cons (h1 h2 h3 h4 : Char) (t : List Char) (a b c2 d : Nat)
    (ha : parseHexDigitVal h1 = some a) (hb : parseHexDigitVal h2 = some b)
    (hc : parseHexDigitVal h3 = some c2) (hd : parseHexDigitVal h4 = some d) :
    parseHex4 (h1 :: h2 :: h3 :: h4 :: t) =
      some (Char.ofNat (((a * 16 + b) * 16 + c2) * 16 + d)) := by
  rw [parseHex4]
  simp only [ha, hb, hc, hd]

theorem unesc_u (h1 h2 h3 h4 : Char) (t : List Char) (a b c2 d : Nat)
    (ha : parseHexDigitVal h1 = some a) (hb : parseHexDigitVal h2 = some b)
    (hc : parseHexDigitVal h3 = some c2) (hd : parseHexDigitVal h4 = some d) :
    unescAfterBackslash ('u' :: h1 :: h2 :: h3 :: h4 :: t) =
      some (Char.ofNat (((a * 16 + b) * 16 + c2) * 16 + d), 4) := by
  rw [unescAfterBackslash, if_neg (by decide), if_neg (by decide), if_neg (by decide),
    if_neg (by decide), if_neg (by decide), if_pos rfl,
    parseHex4_cons h1 h2 h3 h4 t a b c2 d ha hb hc hd]

theorem parseStrGo_quote (rest acc : List Char) :
    parseStrGo ('"' :: rest) acc = some (String.mk acc.reverse, rest) := by
  rw [parseStrGo, if_pos rfl]

theorem parseStrGo_bs (rest acc : List Char) :
    parseStrGo ('\\' :: rest) acc =
      match unescAfterBackslash rest with
      | some (d, n) => parseStrGo (rest.drop (n + 1)) (d :: acc)
      | none => none := by
  rw [parseStrGo, if_neg (by decide), if_pos rfl]

theorem parseStrGo_other (c : Char) (h1 : c ≠ '"') (h2 : c ≠ '\\') (rest acc : List Char) :
    parseStrGo (c :: rest) acc = parseStrGo rest (c :: acc) := by
  rw [parseStrGo, if_neg h1, if_neg h2]

theorem parseStrGo_printStrBody (cs : List Char) :
    ∀ acc rest, parseStrGo (printStrBody cs ++ '"' :: rest) acc =
      some (String.mk (acc.reverse ++ cs), rest) := by
  induction cs with
  | nil =>
    intro acc rest
    simp only [printStrBody, List.flatMap_nil, List.nil_append]
    rw [parseStrGo_quote]
    simp
  | cons c cs ih =>
    intro acc rest
    have hstep : printStrBody (c :: cs) ++ '"' :: rest =
        escChar c ++ (printStrBody cs ++ '"' :: rest) := by
      simp [printStrBody]
    rw [hstep]
    unfold escChar
    by_cases h1 : c = '"'
    · subst h1
      rw [if_pos rfl]
      show parseStrGo ('\\' :: '"' :: (printStrBody cs ++ '"' :: rest)) acc = _
      rw [parseStrGo_bs, unesc_quote]
      show parseStrGo (List.drop (0 + 1) ('"' :: (printStrBody cs ++ '"' :: rest)))
        ('"' :: acc) = _
      simp only [List.drop_succ_cons, List.drop_zero]
      rw [ih ('"' :: acc) rest]
      simp
    · rw [if_neg h1]
      by_cases h2 : c = '\\'
      · subst h2
        rw [if_pos rfl]
        show parseStrGo ('\\' :: '\\' :: (printStrBody cs ++ '"' :: rest)) acc = _
        rw [parseStrGo_bs, unesc_bs]
        show parseStrGo (List.drop (0 + 1) ('\\' :: (printStrBody cs ++ '"' :: rest)))
          ('\\' :: acc) = _
        simp only [List.drop_succ_cons, List.drop_zero]
        rw [ih ('\\' :: acc) rest]
        simp
      · rw [if_neg h2]
        by_cases h3 : c = '\n'
        · subst h3
          rw [if_pos rfl]
          show parseStrGo ('\\' :: 'n' :: (printStrBody cs ++ '"' :: rest)) acc = _
          rw [parseStrGo_bs, unesc_n]
          show parseStrGo (List.drop (0 + 1) ('n' :: (printStrBody cs ++ '"' :: rest)))
            ('\n' :: acc) = _
          simp only [List.drop_succ_cons, List.drop_zero]
          rw [ih ('\n' :: acc) rest]
          simp
        · rw [if_neg h3]
          by_cases h4 : c = '\t'
          · subst h4
            rw [if_pos rfl]
            show parseStrGo ('\\' :: 't' :: (printStrBody cs ++ '"' :: rest)) acc = _
            rw [parseStrGo_bs, unesc_t]
            show parseStrGo (List.drop (0 + 1) ('t' :: (printStrBody cs ++ '"' :: rest)))
              ('\t' :: acc) = _
            simp only [List.drop_succ_cons, List.drop_zero]
            rw [ih ('\t' :: acc) rest]
            simp
          · rw [if_neg h4]
            by_cases h5 : c = '\r'
            · subst h5
              rw [if_pos rfl]
              show parseStrGo ('\\' :: 'r' :: (printStrBody cs ++ '"' :: rest)) acc = _
              rw [parseStrGo_bs, unesc_r]
              show parseStrGo (List.drop (0 + 1) ('r' :: (printStrBody cs ++ '"' :: rest)))
                ('\r' :: acc) = _
              simp only [List.drop_succ_cons, List.drop_zero]
              rw [ih ('\r' :: acc) rest]
              simp
            · rw [if_neg h5]
              by_cases h6 : c.toNat < 32
              · rw [if_pos h6]
                show parseStrGo ('\\' :: 'u' :: '0' :: '0' ::
                  hexDigitChar (c.toNat / 16) :: hexDigitChar (c.toNat % 16) ::
                  (printStrBody cs ++ '"' :: rest)) acc = _
                rw [parseStrGo_bs,
                  unesc_u '0' '0' (hexDigitChar (c.toNat / 16)) (hexDigitChar (c.toNat % 16))
                    _ 0 0 (c.toNat / 16) (c.toNat % 16) (by decide) (by decide)
                    (parseHexDigitVal_hexDigitChar (c.toNat / 16) (by omega))
                    (parseHexDigitVal_hexDigitChar (c.toNat % 16) (by omega))]
                have hc : ((0 * 16 + 0) * 16 + c.toNat / 16) * 16 + c.toNat % 16 = c.toNat := by
                  omega
                rw [hc, Char.ofNat_toNat]
                show parseStrGo (List.drop (4 + 1)
                  ('u' :: '0' :: '0' :: hexDigitChar (c.toNat / 16) ::
                    hexDigitChar (c.toNat % 16) :: (printStrBody cs ++ '"' :: rest)))
                  (c :: acc) = _
                simp only [List.drop_succ_cons, List.drop_zero]
                rw [ih (c :: acc) rest]
                simp
              · rw [if_neg h6]
                show parseStrGo (c :: (printStrBody cs ++ '"' :: rest)) acc = _
                rw [parseStrGo_other c h1 h2, ih (c :: acc) rest]
                simp

/-! ## Parser step lemmas -/

theorem expectChars_prefix (es : List Char) (rest : List Char) :
    expectChars es (es ++ rest) = some rest := by
  induction es with
  | nil => rfl
  | cons e es ih =>
    show expectChars (e :: es) (e :: (es ++ rest)) = some rest
    rw [expectChars, if_pos rfl, ih]

theorem parseVal_quote (f : Nat) (X : List Char) :
    parseVal (f + 1) ('"' :: X) =
      match parseStrGo X [] with
      | some (s, r) => some (.str s, r)
      | none => none := by
  rw [parseVal, if_pos rfl]

theorem parseVal_null (f : Nat) (rest : List Char) :
    parseVal (f + 1) (nullChars ++ rest) = some (.null, rest) := by
  show parseVal (f + 1) ('n' :: (['u', 'l', 'l'] ++ rest)) = _
  rw [parseVal, if_neg (by decide), if_pos rfl, expectChars_prefix]

theorem parseVal_true (f : Nat) (rest : List Char) :
    parseVal (f + 1) (trueChars ++ rest) = some (.bool true, rest) := by
  show parseVal (f + 1) ('t' :: (['r', 'u', 'e'] ++ rest)) = _
  rw [parseVal, if_neg (by decide), if_neg (by decide), if_pos rfl, expectChars_prefix]

theorem parseVal_false (f : Nat) (rest : List Char) :
    parseVal (f + 1) (falseChars ++ rest) = some (.bool false, rest) := by
  show parseVal (f + 1) ('f' :: (['a', 'l', 's', 'e'] ++ rest)) = _
  rw [parseVal, if_neg (by decide), if_neg (by decide), if_neg (by decide), if_pos rfl,
    expectChars_prefix]

theorem parseVal_str (f : Nat) (s : String) (rest : List Char) :
    parseVal (f + 1) (('"' :: (printStrBody s.data ++ ['"'])) ++ rest) =
      some (.str s, rest) := by
  have hsplit : ('"' :: (printStrBody s.data ++ ['"'])) ++ rest =
      '"' :: (printStrBody s.data ++ '"' :: rest) := by simp
  rw [hsplit, parseVal_quote, parseStrGo_printStrBody s.data [] rest]
  simp

theorem parseVal_intChars (f : Nat) (n : Int) (rest : List Char) (h : headNotDigit rest) :
    parseVal (f + 1) (intChars n ++ rest) = some (.num n, rest) := by
  obtain ⟨c, cs, hc, hcase⟩ := intChars_head n
  have hsplit : intChars n ++ rest = c :: (cs ++ rest) := by rw [hc]; simp
  have hne : c ≠ '"' ∧ c ≠ 'n' ∧ c ≠ 't' ∧ c ≠ 'f' ∧ c ≠ '[' ∧ c ≠ lbraceChar := by
    rcases hcase with h | h
    · subst h
      refine ⟨by decide, by decide, by decide, by decide, by decide, by decide⟩
    · obtain ⟨a1, a2, a3, a4, a5, a6, _, _, _, _⟩ := digit_ne_delims c h
      exact ⟨a1, a2, a3, a4, a5, a6⟩
  rw [hsplit, parseVal, if_neg hne.1, if_neg hne.2.1, if_neg hne.2.2.1, if_neg hne.2.2.2.1,
    if_neg hne.2.2.2.2.1, if_neg hne.2.2.2.2.2, ← hsplit, parseIntAt_intChars n rest h]

theorem parseVal_arrOpen (f : Nat) (X : List Char) :
    parseVal (f + 1) ('[' :: X) = parseArr f X := by
  rw [parseVal, if_neg (by decide), if_neg (by decide), if_neg (by decide),
    if_neg (by decide), if_pos rfl]

theorem parseVal_objOpen (f : Nat) (X : List Char) :
    parseVal (f + 1) (lbraceChar :: X) = parseObj f X := by
  rw [parseVal, if_neg (by decide), if_neg (by decide), if_neg (by decide),
    if_neg (by decide), if_neg (by decide), if_pos rfl]

theorem parseArr_close (f : Nat) (r : List Char) :
    parseArr (f + 1) (']' :: r) = some (.arr [], r) := by
  rw [parseArr, if_pos rfl]

theorem parseArr_go (f : Nat) (c : Char) (r : List Char) (h : c ≠ ']') :
    parseArr (f + 1) (c :: r) =
      match parseVal f (c :: r) with
      | some (v, r2) => parseArrTail f r2 [v]
      | none => none := by
  rw [parseArr, if_neg h]

theorem parseArrTail_close (f : Nat) (r : List Char) (acc : List Val) :
    parseArrTail (f + 1) (']' :: r) acc = some (.arr acc, r) := by
  rw [parseArrTail, if_pos rfl]

theorem parseArrTail_comma (f : Nat) (r : List Char) (acc : List Val) :
    parseArrTail (f + 1) (',' :: r) acc =
      match parseVal f r with
      | some (v, r2) => parseArrTail f r2 (acc ++ [v])
      | none => none := by
  rw [parseArrTail, if_neg (by decide), if_pos rfl]

theorem parseKVAt_step (f : Nat) (k : String) (X : List Char) :
    parseKVAt (f + 1) ('"' :: (printStrBody k.data ++ '"' :: ':' :: X)) =
      match parseVal f X with
      | some (v, r3) => some (k, v, r3)
      | none => none := by
  rw [parseKVAt, if_pos rfl, parseStrGo_printStrBody k.data [] (':' :: X)]
  simp

theorem parseObj_close (f : Nat) (r : List Char) :
    parseObj (f + 1) (rbraceChar :: r) = some (.obj [], r) := by
  rw [parseObj, if_pos rfl]

theorem parseObj_go (f : Nat) (c : Char) (r : List Char) (h : c ≠ rbraceChar) :
    parseObj (f + 1) (c :: r) =
      match parseKVAt f (c :: r) with
      | some (k, v, r2) => parseObjTail f r2 [(k, v)]
      | none => none := by
  rw [parseObj, if_neg h]

theorem parseObjTail_close (f : Nat) (r : List Char) (acc : List (String × Val)) :
    parseObjTail (f + 1) (rbraceChar :: r) acc = some (.obj acc, r) := by
  rw [parseObjTail, if_pos rfl]

theorem parseObjTail_comma (f : Nat) (r : List Char) (acc : List (String × Val)) :
    parseObjTail (f + 1) (',' :: r) acc =
      match parseKVAt f r with
      | some (k, v, r2) => parseObjTail f r2 (acc ++ [(k, v)])
      | none => none := by
  rw [parseObjTail, if_neg (by decide), if_pos rfl]

/-! ## Print/parse round trip -/

theorem printVal_cons (v : Val) :
    ∃ c cs, printVal v = c :: cs ∧ c ≠ ']' ∧ c ≠ rbraceChar ∧ c ≠ ',' := by
  cases v with
  | null => exact ⟨'n', ['u', 'l', 'l'], rfl, by decide, by decide, by decide⟩
  | bool b =>
    cases b with
    | true => exact ⟨'t', ['r', 'u', 'e'], rfl, by decide, by decide, by decide⟩
    | false => exact ⟨'f', ['a', 'l', 's', 'e'], rfl, by decide, by decide, by decide⟩
  | num n =>
    obtain ⟨c, cs, hc, hcase⟩ := intChars_head n
    refine ⟨c, cs, by rw [printVal, hc], ?_, ?_, ?_⟩ <;>
      (rcases hcase with h | h
       · subst h; decide
       · first
         | exact (digit_ne_delims c h).2.2.2.2.2.2.1
         | exact (digit_ne_delims c h).2.2.2.2.2.2.2.1
         | exact (digit_ne_delims c h).2.2.2.2.2.2.2.2.1)
  | str s => exact ⟨'"', _, by rw [printVal], by decide, by decide, by decide⟩
  | arr xs =>
    cases xs with
    | nil => exact ⟨'[', _, by rw [printVal], by decide, by decide, by decide⟩
    | cons x xs => exact ⟨'[', _, by rw [printVal], by decide, by decide, by decide⟩
  | obj kvs =>
    cases kvs with
    | nil => exact ⟨lbraceChar, _, by rw [printVal], by decide, by decide, by decide⟩
    | cons kv kvs => exact ⟨lbraceChar, _, by rw [printVal], by decide, by decide, by decide⟩

theorem hnd_arrTail (ys : List Val) (rest : List Char) :
    headNotDigit (printArrTailChars ys ++ ']' :: rest) := by
  cases ys with
  | nil =>
    rw [printArrTailChars]
    show ¬ (']' : Char).isDigit = true
    decide
  | cons y ys =>
    rw [printArrTailChars]
    show ¬ (',' : Char).isDigit = true
    decide

theorem hnd_objTail (kvs : List (String × Val)) (rest : List Char) :
    headNotDigit (printObjTailChars kvs ++ rbraceChar :: rest) := by
  cases kvs with
  | nil =>
    rw [printObjTailChars]
    show ¬ (rbraceChar : Char).isDigit = true
    decide
  | cons kv kvs =>
    rw [printObjTailChars]
    show ¬ (',' : Char).isDigit = true
    decide

theorem fsizeO_pos (kvs : List (String × Val)) : 1 ≤ fsizeO kvs := by
  cases kvs with
  | nil => rw [fsizeO]
  | cons kv t => rw [fsizeO]; omega

theorem parseArrTail_print (ys : List Val)
    (hys : ∀ u ∈ ys, ∀ fuel rest, fsize u ≤ fuel → headNotDigit rest →
      parseVal fuel (printVal u ++ rest) = some (u, rest)) :
    ∀ f acc rest, fsizeL ys ≤ f → headNotDigit rest →
      parseArrTail f (printArrTailChars ys ++ ']' :: rest) acc =
        some (.arr (acc ++ ys), rest) := by
  induction ys with
  | nil =>
    intro f acc rest hf hrest
    rw [fsizeL] at hf
    cases f with
    | zero => omega
    | succ f2 =>
      rw [printArrTailChars, List.nil_append, parseArrTail_close]
      simp
  | cons y ys ih =>
    intro f acc rest hf hrest
    rw [fsizeL] at hf
    cases f with
    | zero => omega
    | succ f2 =>
      have hsplit : printArrTailChars (y :: ys) ++ ']' :: rest =
          ',' :: (printVal y ++ (printArrTailChars ys ++ ']' :: rest)) := by
        rw [printArrTailChars]
        simp
      rw [hsplit, parseArrTail_comma,
        hys y (by simp) f2 _ (by omega) (hnd_arrTail ys rest)]
      show parseArrTail f2 (printArrTailChars ys ++ ']' :: rest) (acc ++ [y]) = _
      rw [ih (fun u hu => hys u (by simp [hu])) f2 (acc ++ [y]) rest (by omega) hrest]
      simp

theorem parseObjTail_print (kvs : List (String × Val))
    (hkvs : ∀ kv ∈ kvs, ∀ fuel rest, fsize kv.2 ≤ fuel → headNotDigit rest →
      parseVal fuel (printVal kv.2 ++ rest) = some (kv.2, rest)) :
    ∀ f acc rest, fsizeO kvs ≤ f → headNotDigit rest →
      parseObjTail f (printObjTailChars kvs ++ rbraceChar :: rest) acc =
        some (.obj (acc ++ kvs), rest) := by
  induction kvs with
  | nil =>
    intro f acc rest hf hrest
    rw [fsizeO] at hf
    cases f with
    | zero => omega
    | succ f2 =>
      rw [printObjTailChars, List.nil_append, parseObjTail_close]
      simp
  | cons kv kvs ih =>
    obtain ⟨k, v⟩ := kv
    intro f acc rest hf hrest
    rw [fsizeO] at hf
    cases f with
    | zero => omega
    | succ f2 =>
      cases f2 with
      | zero => omega
      | succ f3 =>
        have hsplit : printObjTailChars ((k, v) :: kvs) ++ rbraceChar :: rest =
            ',' :: ('"' :: (printStrBody k.data ++ '"' :: ':' ::
              (printVal v ++ (printObjTailChars kvs ++ rbraceChar :: rest)))) := by
          rw [printObjTailChars, printKV]
          simp
        rw [hsplit, parseObjTail_comma, parseKVAt_step,
          hkvs (k, v) (by simp) f3 _ (by omega) (hnd_objTail kvs rest)]
        show parseObjTail (f3 + 1) (printObjTailChars kvs ++ rbraceChar :: rest)
          (acc ++ [(k, v)]) = _
        rw [ih (fun kv hkv => hkvs kv (by simp [hkv])) (f3 + 1) (acc ++ [(k, v)]) rest
          (by omega) hrest]
        simp

theorem parseVal_printVal :
    ∀ v : Val, ∀ fuel rest, fsize v ≤ fuel → headNotDigit rest →
      parseVal fuel (printVal v ++ rest) = some (v, rest) := by
  intro v
  induction v using Val.indOn with
  | h0 =>
    intro fuel rest hf hrest
    rw [fsize] at hf
    cases fuel with
    | zero => omega
    | succ f =>
      rw [printVal, parseVal_null]
  | h1 b =>
    intro fuel rest hf hrest
    rw [fsize] at hf
    cases fuel with
    | zero => omega
    | succ f =>
      cases b with
      | true => rw [printVal, parseVal_true]
      | false => rw [printVal, parseVal_false]
  | h2 n =>
    intro fuel rest hf hrest
    rw [fsize] at hf
    cases fuel with
    | zero => omega
    | succ f =>
      rw [printVal, parseVal_intChars f n rest hrest]
  | h3 s =>
    intro fuel rest hf hrest
    rw [fsize] at hf
    cases fuel with
    | zero => omega
    | succ f =>
      rw [printVal, parseVal_str]
  | h4 xs ih =>
    intro fuel rest hf hrest
    cases xs with
    | nil =>
      rw [fsize] at hf
      cases fuel with
      | zero => omega
      | succ f =>
        cases f with
        | zero => omega
        | succ f2 =>
          rw [printVal]
          show parseVal (f2 + 1 + 1) ('[' :: (']' :: rest)) = _
          rw [parseVal_arrOpen, parseArr_close]
    | cons x xs2 =>
      rw [fsize] at hf
      cases fuel with
      | zero => omega
      | succ f =>
        cases f with
        | zero => omega
        | succ f2 =>
          rw [printVal]
          have hsplit : ('[' :: (printVal x ++ printArrTailChars xs2 ++ [']'])) ++ rest =
              '[' :: (printVal x ++ (printArrTailChars xs2 ++ ']' :: rest)) := by
            simp
          rw [hsplit, parseVal_arrOpen]
          obtain ⟨c, cs, hc, hne1, hne2, hne3⟩ := printVal_cons x
          have hsplit2 : printVal x ++ (printArrTailChars xs2 ++ ']' :: rest) =
              c :: (cs ++ (printArrTailChars xs2 ++ ']' :: rest)) := by
            rw [hc]
            simp
          rw [hsplit2, parseArr_go _ _ _ hne1, ← hsplit2,
            ih x (by simp) f2 _ (by omega) (hnd_arrTail xs2 rest)]
          show parseArrTail f2 (printArrTailChars xs2 ++ ']' :: rest) [x] = _
          rw [parseArrTail_print xs2 (fun u hu => ih u (by simp [hu])) f2 [x] rest
            (by omega) hrest]
          simp
  | h5 kvs ih =>
    intro fuel rest hf hrest
    cases kvs with
    | nil =>
      rw [fsize] at hf
      cases fuel with
      | zero => omega
      | succ f =>
        cases f with
        | zero => omega
        | succ f2 =>
          rw [printVal]
          show parseVal (f2 + 1 + 1) (lbraceChar :: (rbraceChar :: rest)) = _
          rw [parseVal_objOpen, parseObj_close]
    | cons kv kvs2 =>
      obtain ⟨k, v⟩ := kv
      rw [fsize] at hf
      have hpos := fsizeO_pos kvs2
      cases fuel with
      | zero => omega
      | succ f =>
        cases f with
        | zero => omega
        | succ f2 =>
          cases f2 with
          | zero => omega
          | succ f3 =>
            replace hf : 2 + fsize v + fsizeO kvs2 ≤ f3 + 1 + 1 + 1 := hf
            rw [printVal]
            have hsplit : (lbraceChar :: (printKV (k, v) ++ printObjTailChars kvs2 ++
                [rbraceChar])) ++ rest =
                lbraceChar :: ('"' :: (printStrBody k.data ++ '"' :: ':' ::
                  (printVal v ++ (printObjTailChars kvs2 ++ rbraceChar :: rest)))) := by
              rw [printKV]
              simp
            have hvpos := fsizeO_pos kvs2
            have hih : ∀ fuel rest2, fsize v ≤ fuel → headNotDigit rest2 →
                parseVal fuel (printVal v ++ rest2) = some (v, rest2) :=
              ih (k, v) (by simp)
            rw [hsplit, parseVal_objOpen,
              parseObj_go _ _ _ (by decide), parseKVAt_step,
              hih f3 _ (by omega) (hnd_objTail kvs2 rest)]
            show parseObjTail (f3 + 1)
              (printObjTailChars kvs2 ++ rbraceChar :: rest) [(k, v)] = _
            rw [parseObjTail_print kvs2 (fun kv hkv => ih kv (by simp [hkv])) (f3 + 1)
              [(k, v)] rest (by omega) hrest]
            simp

theorem printVal_length_pos (v : Val) : 1 ≤ (printVal v).length := by
  obtain ⟨c, cs, hc, _, _, _⟩ := printVal_cons v
  rw [hc]
  simp

theorem fsizeL_le (ys : List Val)
    (h : ∀ u ∈ ys, fsize u ≤ 3 * (printVal u).length + 1) :
    fsizeL ys ≤ 3 * (printArrTailChars ys).length + 1 := by
  induction ys with
  | nil =>
    rw [fsizeL, printArrTailChars]
    simp
  | cons y ys ih =>
    rw [fsizeL, printArrTailChars]
    have h1 := h y (by simp)
    have h2 := ih (fun u hu => h u (by simp [hu]))
    simp only [List.cons_append, List.length_cons, List.length_append]
    omega

theorem fsizeO_le (kvs : List (String × Val))
    (h : ∀ kv ∈ kvs, fsize kv.2 ≤ 3 * (printVal kv.2).length + 1) :
    fsizeO kvs ≤ 3 * (printObjTailChars kvs).length + 1 := by
  induction kvs with
  | nil =>
    rw [fsizeO, printObjTailChars]
    simp
  | cons kv kvs ih =>
    obtain ⟨k, v⟩ := kv
    rw [fsizeO, printObjTailChars, printKV]
    have h1 : fsize v ≤ 3 * (printVal v).length + 1 := h (k, v) (by simp)
    have h2 := ih (fun kv hkv => h kv (by simp [hkv]))
    simp only [List.cons_append, List.length_cons, List.length_append, List.length_nil]
    omega

theorem fsize_le_printVal (v : Val) : fsize v ≤ 3 * (printVal v).length + 1 := by
  induction v using Val.indOn with
  | h0 => rw [fsize]; omega
  | h1 b => rw [fsize]; omega
  | h2 n => rw [fsize]; omega
  | h3 s => rw [fsize]; omega
  | h4 xs ih =>
    cases xs with
    | nil =>
      rw [fsize, printVal]
      simp
    | cons x xs2 =>
      rw [fsize, printVal]
      have h1 := ih x (by simp)
      have h2 := fsizeL_le xs2 (fun u hu => ih u (by simp [hu]))
      simp only [List.cons_append, List.length_cons, List.length_append]
      omega
  | h5 kvs ih =>
    cases kvs with
    | nil =>
      rw [fsize, printVal]
      simp
    | cons kv kvs2 =>
      obtain ⟨k, v⟩ := kv
      rw [fsize, printVal, printKV]
      have h1 : fsize v ≤ 3 * (printVal v).length + 1 := ih (k, v) (by simp)
      have h2 := fsizeO_le kvs2 (fun kv hkv => ih kv (by simp [hkv]))
      simp only [List.cons_append, List.length_cons, List.length_append, List.length_nil]
      omega

/-- The JSON round trip: parsing a printed value recovers it exactly. -/
theorem loads_dumps (v : Val) : loads (dumps v) = .ok v := by
  unfold loads dumps
  have hdata : (String.mk (printVal v)).data = printVal v := rfl
  have hlen : (String.mk (printVal v)).length = (printVal v).length := rfl
  rw [hdata, hlen]
  have h := parseVal_printVal v (3 * (printVal v).length + 3) []
    (by have := fsize_le_printVal v; omega) trivial
  rw [List.append_nil] at h
  rw [h]

/-! ## Dictionary lemmas -/

theorem dHasKey_iff_dget {a : Type} (d : List (String × a)) (k : String) :
    dHasKey d k = true ↔ ∃ v, dget d k = some v := by
  induction d with
  | nil => simp [dHasKey, dget]
  | cons kv rest ih =>
    obtain ⟨k2, v2⟩ := kv
    by_cases h : k2 = k
    · subst h
      simp [dHasKey, dget]
    · rw [dHasKey, dget]
      simp only [List.any_cons, if_neg h, Bool.or_eq_true, decide_eq_true_eq]
      rw [dHasKey] at ih
      simp [h, ih]

theorem dHasKey_false_dget {a : Type} (d : List (String × a)) (k : String)
    (h : dHasKey d k = false) : dget d k = none := by
  rcases hd : dget d k with _ | v
  · rfl
  · exact absurd ((dHasKey_iff_dget d k).mpr ⟨v, hd⟩) (by simp [h])

theorem dget_dset_self {a : Type} (d : List (String × a)) (k : String) (v : a) :
    dget (dset d k v) k = some v := by
  induction d with
  | nil => simp [dset, dget]
  | cons kv rest ih =>
    obtain ⟨k2, v2⟩ := kv
    by_cases h : k2 = k
    · subst h
      simp [dset, dget]
    · rw [dset, if_neg h, dget, if_neg h]
      exact ih

theorem dget_dset_ne {a : Type} (d : List (String × a)) (k k2 : String) (v : a)
    (h : k ≠ k2) : dget (dset d k v) k2 = dget d k2 := by
  induction d with
  | nil => simp [dset, dget, h]
  | cons kv rest ih =>
    obtain ⟨k3, v3⟩ := kv
    by_cases h3 : k3 = k
    · subst h3
      rw [dset, if_pos rfl, dget, dget, if_neg h, if_neg h]
    · rw [dset, if_neg h3, dget, dget]
      split
      · rfl
      · exact ih

theorem dget_dupdate_not_in {a : Type} (u : List (String × a)) (k : String)
    (hk : dHasKey u k = false) :
    ∀ d, dget (dupdate d u) k = dget d k := by
  induction u with
  | nil => intro d; rfl
  | cons kv rest ih =>
    obtain ⟨k2, v2⟩ := kv
    intro d
    rw [dHasKey] at hk
    simp only [List.any_cons, Bool.or_eq_false_iff, decide_eq_false_iff_not] at hk
    rw [dupdate, ih (by rw [dHasKey]; simp [hk.2]), dget_dset_ne d k2 k v2 hk.1]

theorem dset_fresh_append {a : Type} (d : List (String × a)) (k : String) (v : a)
    (h : dHasKey d k = false) : dset d k v = d ++ [(k, v)] := by
  induction d with
  | nil => rfl
  | cons kv rest ih =>
    obtain ⟨k2, v2⟩ := kv
    rw [dHasKey] at h
    simp only [List.any_cons, Bool.or_eq_false_iff, decide_eq_false_iff_not] at h
    rw [dset, if_neg h.1, List.cons_append, ih (by rw [dHasKey]; simp [h.2])]

/-! ## Validation: `validate_template` agrees with the declarative rules -/

theorem checkRequiredFields_obj (kvs : List (String × Val)) (fs : List String) :
    checkRequiredFields (.obj kvs) fs =
      match fs.find? (fun f => ! dHasKey kvs f) with
      | some f => .error ("Missing required field: " ++ f)
      | none => .ok () := by
  induction fs with
  | nil => rfl
  | cons f fs ih =>
    rw [checkRequiredFields]
    show (if dHasKey kvs f then checkRequiredFields (.obj kvs) fs
      else .error ("Missing required field: " ++ f)) = _
    by_cases hk : dHasKey kvs f
    · rw [if_pos hk, ih]
      simp [List.find?_cons, hk]
    · rw [if_neg hk]
      simp only [Bool.not_eq_true] at hk
      simp [List.find?_cons, hk]

theorem checkSectionFields_eq (i : Nat) (kvs : List (String × Val)) (fs : List String) :
    checkSectionFields i kvs fs =
      match fs.find? (fun f => ! dHasKey kvs f) with
      | some f => .error ("Section " ++ toString i ++ " missing required field: " ++ f)
      | none => .ok () := by
  induction fs with
  | nil => rfl
  | cons f fs ih =>
    rw [checkSectionFields]
    by_cases hk : dHasKey kvs f
    · rw [if_pos hk, ih]
      simp [List.find?_cons, hk]
    · rw [if_neg hk]
      simp only [Bool.not_eq_true] at hk
      simp [List.find?_cons, hk]

theorem checkOneSection_ok (s : Val) (i : Nat) (seen : List Val)
    (hrule : sectionRuleOk s = true) (hmem : sectionIdOf s ∉ seen) :
    checkOneSection s i seen = .ok (seen ++ [sectionIdOf s]) := by
  cases s with
  | obj kvs =>
    rw [sectionRuleOk] at hrule
    simp only [Bool.and_eq_true] at hrule
    rw [checkOneSection, checkSectionFields_eq]
    have hfind : (List.find? (fun f => ! dHasKey kvs f) ["id", "title", "order"]) = none := by
      simp [List.find?_cons, hrule.1.1, hrule.1.2, hrule.2]
    rw [hfind]
    show (if (dget kvs "id").getD .null ∈ seen then _ else
      Except.ok (seen ++ [(dget kvs "id").getD .null])) = _
    rw [sectionIdOf] at hmem ⊢
    rw [if_neg hmem]
  | null => simp [sectionRuleOk] at hrule
  | bool b => simp [sectionRuleOk] at hrule
  | num n => simp [sectionRuleOk] at hrule
  | str s2 => simp [sectionRuleOk] at hrule
  | arr xs => simp [sectionRuleOk] at hrule

theorem checkOneSection_spec (s : Val) (i : Nat) (seen seen2 : List Val)
    (h : checkOneSection s i seen = .ok seen2) :
    sectionRuleOk s = true ∧ sectionIdOf s ∉ seen ∧ seen2 = seen ++ [sectionIdOf s] := by
  cases s with
  | obj kvs =>
    rw [checkOneSection, checkSectionFields_eq] at h
    rcases hfind : (List.find? (fun f => ! dHasKey kvs f) ["id", "title", "order"])
      with _ | f
    · rw [hfind] at h
      show (sectionRuleOk (.obj kvs)) = true ∧ _
      rw [List.find?_eq_none] at hfind
      have h1 : dHasKey kvs "id" = true := by
        have := hfind "id" (by simp)
        simpa using this
      have h2 : dHasKey kvs "title" = true := by
        have := hfind "title" (by simp)
        simpa using this
      have h3 : dHasKey kvs "order" = true := by
        have := hfind "order" (by simp)
        simpa using this
      refine ⟨by rw [sectionRuleOk]; simp [h1, h2, h3], ?_⟩
      revert h
      show (if (dget kvs "id").getD .null ∈ seen then _ else
        Except.ok (seen ++ [(dget kvs "id").getD .null])) = Except.ok seen2 → _
      rw [sectionIdOf]
      split
      · intro h
        exact absurd h (by simp)
      · intro h
        simp only [Except.ok.injEq] at h
        exact ⟨by assumption, h.symm⟩
    · rw [hfind] at h
      exact Except.noConfusion h
  | null => rw [checkOneSection] at h; exact Except.noConfusion h
  | bool b => rw [checkOneSection] at h; exact Except.noConfusion h
  | num n => rw [checkOneSection] at h; exact Except.noConfusion h
  | str s2 => rw [checkOneSection] at h; exact Except.noConfusion h
  | arr xs => rw [checkOneSection] at h; exact Except.noConfusion h

theorem checkSections_ok (l : List Val) :
    ∀ i seen, (∀ s ∈ l, sectionRuleOk s = true) →
      nodupB (l.map sectionIdOf) = true →
      (∀ v ∈ l.map sectionIdOf, v ∉ seen) →
      checkSections l i seen = .ok true := by
  induction l with
  | nil => intro i seen _ _ _; rfl
  | cons s l ih =>
    intro i seen hall hnd hdisj
    rw [checkSections, checkOneSection_ok s i seen (hall s (by simp))
      (hdisj (sectionIdOf s) (by simp))]
    show checkSections l (i + 1) (seen ++ [sectionIdOf s]) = .ok true
    simp only [List.map_cons, nodupB, Bool.and_eq_true, decide_eq_true_eq] at hnd
    apply ih (i + 1) (seen ++ [sectionIdOf s]) (fun u hu => hall u (by simp [hu]))
      (by simpa using hnd.2)
    intro v hv
    simp only [List.mem_append, List.mem_singleton]
    push_neg
    refine ⟨hdisj v (by simp [hv]), ?_⟩
    intro heq
    subst heq
    exact absurd hv (by simpa using hnd.1)

theorem checkSections_spec (l : List Val) :
    ∀ i seen b, checkSections l i seen = .ok b →
      b = true ∧ (∀ s ∈ l, sectionRuleOk s = true) ∧
        nodupB (l.map sectionIdOf) = true ∧
        (∀ v ∈ l.map sectionIdOf, v ∉ seen) := by
  induction l with
  | nil =>
    intro i seen b h
    rw [checkSections] at h
    simp only [Except.ok.injEq] at h
    simp [h.symm, nodupB]
  | cons s l ih =>
    intro i seen b h
    rw [checkSections] at h
    rcases hone : checkOneSection s i seen with m | seen2
    · rw [hone] at h
      exact absurd h (by simp [Bind.bind, Except.bind])
    · rw [hone] at h
      obtain ⟨hrule, hmem, hseen2⟩ := checkOneSection_spec s i seen seen2 hone
      have h2 : checkSections l (i + 1) seen2 = .ok b := h
      obtain ⟨hb, hall, hnd, hdisj⟩ := ih (i + 1) seen2 b h2
      subst hseen2
      refine ⟨hb, ?_, ?_, ?_⟩
      · intro u hu
        rcases List.mem_cons.mp hu with h | h
        · subst h; exact hrule
        · exact hall u h
      · rw [List.map_cons, nodupB]
        simp only [Bool.and_eq_true, decide_eq_true_eq]
        constructor
        · intro hmem2
          exact absurd (List.mem_append_right seen (by simp))
            (hdisj (sectionIdOf s) hmem2)
        · exact hnd
      · intro v hv hvseen
        simp only [List.map_cons, List.mem_cons] at hv
        rcases hv with hveq | hvtail
        · subst hveq
          exact hmem hvseen
        · exact hdisj v (by simpa using hvtail) (List.mem_append_left _ hvseen)

theorem ok_bind {α β : Type} (x : α) (k : α → Except String β) :
    (Except.ok x >>= k) = k x := rfl

theorem err_bind {α β : Type} (m : String) (k : α → Except String β) :
    ((Except.error m : Except String α) >>= k) = Except.error m := rfl

theorem validateStructure_ok (sv : Val) (h : structRules sv = true) :
    validateStructure sv = .ok true := by
  cases sv with
  | obj skvs =>
    rw [structRules] at h
    rcases hsec : dget skvs "sections" with _ | secv
    · rw [hsec] at h
      exact absurd h (by simp)
    · rw [hsec] at h
      have hk : dHasKey skvs "sections" = true :=
        (dHasKey_iff_dget skvs "sections").mpr ⟨secv, hsec⟩
      cases secv with
      | arr sections =>
        simp only [Bool.and_eq_true, Bool.not_eq_true', decide_eq_true_eq] at h
        unfold validateStructure
        rw [show pyIn "sections" (Val.obj skvs) = Except.ok (dHasKey skvs "sections")
          from rfl, hk, ok_bind]
        rw [if_neg (by simp)]
        rw [show pyGetItem (Val.obj skvs) "sections" = Except.ok (Val.arr sections) from by
          show (match dget skvs "sections" with
            | some x => Except.ok x
            | none => (Except.error ("KeyError: " ++ "sections") : Except String Val)) = _
          rw [hsec], ok_bind]
        show (if sections.length = 0
          then (Except.error "Template must have at least one section" : Except String Bool)
          else checkSections sections 0 []) = Except.ok true
        rw [if_neg (by
          intro hlen
          have : sections.isEmpty = true := by
            cases sections with
            | nil => rfl
            | cons a l => simp at hlen
          rw [this] at h
          simp at h)]
        refine checkSections_ok sections 0 []
          (by have := h.1.2; simpa [List.all_eq_true] using this)
          h.2 (by simp)
      | null => exact absurd h (by simp)
      | bool b => exact absurd h (by simp)
      | num n => exact absurd h (by simp)
      | str s2 => exact absurd h (by simp)
      | obj kvs2 => exact absurd h (by simp)
  | null => rw [structRules] at h; exact absurd h (by simp)
  | bool b => rw [structRules] at h; exact absurd h (by simp)
  | num n => rw [structRules] at h; exact absurd h (by simp)
  | str s2 => rw [structRules] at h; exact absurd h (by simp)
  | arr xs => rw [structRules] at h; exact absurd h (by simp)

theorem validateStructure_err (sv : Val) (h : structRules sv = false) :
    ∃ m, validateStructure sv = .error m := by
  cases sv with
  | obj skvs =>
    rw [structRules] at h
    rcases hsec : dget skvs "sections" with _ | secv
    · have hk : dHasKey skvs "sections" = false := by
        rcases hb : dHasKey skvs "sections" with _ | _
        · rfl
        · obtain ⟨v, hv⟩ := (dHasKey_iff_dget skvs "sections").mp hb
          rw [hv] at hsec
          exact absurd hsec (by simp)
      refine ⟨"Template must have sections", ?_⟩
      unfold validateStructure
      rw [show pyIn "sections" (Val.obj skvs) = Except.ok (dHasKey skvs "sections")
        from rfl, hk, ok_bind]
      rw [if_pos (by simp)]
    · rw [hsec] at h
      have hk : dHasKey skvs "sections" = true :=
        (dHasKey_iff_dget skvs "sections").mpr ⟨secv, hsec⟩
      have hred : validateStructure (.obj skvs) =
          ((match dget skvs "sections" with
            | some x => Except.ok x
            | none => (Except.error ("KeyError: " ++ "sections") : Except String Val)) >>=
           (fun sectionsV =>
             match sectionsV with
             | .arr sections =>
               if sections.length = 0
               then (.error "Template must have at least one section" : Except String Bool)
               else checkSections sections 0 []
             | _ => .error "Template must have at least one section")) := by
        unfold validateStructure
        rw [show pyIn "sections" (Val.obj skvs) = Except.ok (dHasKey skvs "sections")
          from rfl, hk, ok_bind]
        rw [if_neg (by simp)]
        rfl
      rw [hred, hsec, ok_bind]
      cases secv with
      | arr sections =>
        show (∃ m, (if sections.length = 0
          then (Except.error "Template must have at least one section" : Except String Bool)
          else checkSections sections 0 []) = .error m)
        by_cases hlen : sections.length = 0
        · exact ⟨_, by rw [if_pos hlen]⟩
        · rw [if_neg hlen]
          rcases hcs : checkSections sections 0 [] with m | b
          · exact ⟨m, rfl⟩
          · obtain ⟨hb, hall, hnd, _⟩ := checkSections_spec sections 0 [] b hcs
            have h2 : (¬ sections.isEmpty && sections.all sectionRuleOk &&
                nodupB (sections.map sectionIdOf)) = false := h
            have hne : sections.isEmpty = false := by
              cases sections with
              | nil => simp at hlen
              | cons a l => rfl
            have hone : sections.all sectionRuleOk = true := List.all_eq_true.mpr hall
            rw [hne, hone, hnd] at h2
            simp at h2
      | null => exact ⟨_, rfl⟩
      | bool b => exact ⟨_, rfl⟩
      | num n => exact ⟨_, rfl⟩
      | str s2 => exact ⟨_, rfl⟩
      | obj kvs2 => exact ⟨_, rfl⟩
  | null => exact ⟨_, rfl⟩
  | bool b => exact ⟨_, rfl⟩
  | num n => exact ⟨_, rfl⟩
  | str s2 =>
    unfold validateStructure
    by_cases hc : containsSub s2.data "sections".data
    · refine ⟨"TypeError: value is not subscriptable", ?_⟩
      rw [show pyIn "sections" (Val.str s2) = Except.ok (containsSub s2.data "sections".data)
        from rfl, hc, ok_bind]
      rw [if_neg (by simp)]
      rfl
    · refine ⟨"Template must have sections", ?_⟩
      rw [show pyIn "sections" (Val.str s2) =
        Except.ok (containsSub s2.data "sections".data) from rfl,
        show containsSub s2.data "sections".data = false from Bool.eq_false_iff.mpr hc,
        ok_bind, if_pos (by simp)]
  | arr xs =>
    unfold validateStructure
    by_cases hc : xs.any (fun x => x = Val.str "sections")
    · refine ⟨"TypeError: value is not subscriptable", ?_⟩
      rw [show pyIn "sections" (Val.arr xs) =
        Except.ok (xs.any (fun x => x = Val.str "sections")) from rfl, hc, ok_bind]
      rw [if_neg (by simp)]
      rfl
    · refine ⟨"Template must have sections", ?_⟩
      rw [show pyIn "sections" (Val.arr xs) =
        Except.ok (xs.any (fun x => x = Val.str "sections")) from rfl,
        show (xs.any (fun x => x = Val.str "sections")) = false from Bool.eq_false_iff.mpr hc,
        ok_bind, if_pos (by simp)]

theorem validate_obj_eq (kvs : List (String × Val)) :
    validate_template (.obj kvs) =
      (match requiredFields.find? (fun f => ! dHasKey kvs f) with
       | some f => (.error ("Missing required field: " ++ f) : Except String Bool)
       | none =>
         (match dget kvs "structure" with
          | some x => Except.ok x
          | none => (.error ("KeyError: " ++ "structure") : Except String Val)) >>=
           validateStructure) := by
  unfold validate_template
  rw [checkRequiredFields_obj]
  rcases hf : requiredFields.find? (fun f => ! dHasKey kvs f) with _ | f
  · rfl
  · rfl

theorem validate_ok_iff (t : Val) :
    validate_template t = .ok true ↔ rulesOk t = true := by
  cases t with
  | obj kvs =>
    rw [validate_obj_eq, rulesOk]
    rcases hf : requiredFields.find? (fun f => ! dHasKey kvs f) with _ | f
    · have hall : requiredFields.all (fun f => dHasKey kvs f) = true := by
        rw [List.all_eq_true]
        intro f hfm
        have := List.find?_eq_none.mp hf f hfm
        simpa using this
      rw [hall, Bool.true_and]
      have hs : dHasKey kvs "structure" = true := by
        rw [List.all_eq_true] at hall
        exact hall "structure" (by simp [requiredFields])
      obtain ⟨sv, hsv⟩ := (dHasKey_iff_dget kvs "structure").mp hs
      rw [hsv, ok_bind]
      constructor
      · intro hv
        rcases hr : structRules sv with _ | _
        · obtain ⟨m, hm⟩ := validateStructure_err sv hr
          have hv2 : validateStructure sv = Except.ok true := hv
          rw [hm] at hv2
          exact Except.noConfusion hv2
        · exact hr
      · intro hr
        show (match none with
          | some f => (Except.error ("Missing required field: " ++ f) : Except String Bool)
          | none => validateStructure sv) = Except.ok true
        exact validateStructure_ok sv hr
    · constructor
      · intro hv
        exact Except.noConfusion hv
      · intro hr
        have hmem := List.mem_of_find?_eq_some hf
        have hpred := List.find?_some hf
        simp only [Bool.not_eq_true'] at hpred
        rw [Bool.and_eq_true, List.all_eq_true] at hr
        exact absurd (hr.1 f hmem) (by simp [hpred])
  | null =>
    constructor
    · intro hv
      exact Except.noConfusion hv
    · intro hr
      exact Bool.noConfusion hr
  | bool b =>
    constructor
    · intro hv
      exact Except.noConfusion hv
    · intro hr
      exact Bool.noConfusion hr
  | num n =>
    constructor
    · intro hv
      exact Except.noConfusion hv
    · intro hr
      exact Bool.noConfusion hr
  | str s =>
    constructor
    · intro hv
      rcases hcr : checkRequiredFields (.str s) requiredFields with m | u
      · unfold validate_template at hv
        rw [hcr, err_bind] at hv
        exact Except.noConfusion hv
      · unfold validate_template at hv
        rw [hcr, ok_bind] at hv
        exact Except.noConfusion hv
    · intro hr
      exact Bool.noConfusion hr
  | arr xs =>
    constructor
    · intro hv
      rcases hcr : checkRequiredFields (.arr xs) requiredFields with m | u
      · unfold validate_template at hv
        rw [hcr, err_bind] at hv
        exact Except.noConfusion hv
      · unfold validate_template at hv
        rw [hcr, ok_bind] at hv
        exact Except.noConfusion hv
    · intro hr
      exact Bool.noConfusion hr

theorem validate_err_of_rules_false (t : Val) (h : rulesOk t = false) :
    ∃ m, validate_template t = .error m := by
  cases t with
  | obj kvs =>
    rw [validate_obj_eq]
    rcases hf : requiredFields.find? (fun f => ! dHasKey kvs f) with _ | f
    · rw [rulesOk] at h
      have hall : requiredFields.all (fun f => dHasKey kvs f) = true := by
        rw [List.all_eq_true]
        intro f hfm
        have := List.find?_eq_none.mp hf f hfm
        simpa using this
      rw [hall, Bool.true_and] at h
      have hs : dHasKey kvs "structure" = true := by
        rw [List.all_eq_true] at hall
        exact hall "structure" (by simp [requiredFields])
      obtain ⟨sv, hsv⟩ := (dHasKey_iff_dget kvs "structure").mp hs
      rw [hsv] at h
      have h2 : structRules sv = false := h
      rw [hsv]
      show ∃ m, validateStructure sv = .error m
      exact validateStructure_err sv h2
    · exact ⟨_, rfl⟩
  | null => exact ⟨_, rfl⟩
  | bool b => exact ⟨_, rfl⟩
  | num n => exact ⟨_, rfl⟩
  | str s =>
    rcases hcr : checkRequiredFields (.str s) requiredFields with m | u
    · exact ⟨m, by unfold validate_template; rw [hcr, err_bind]⟩
    · refine ⟨"TypeError: value is not subscriptable", ?_⟩
      unfold validate_template
      rw [hcr, ok_bind]
      rfl
  | arr xs =>
    rcases hcr : checkRequiredFields (.arr xs) requiredFields with m | u
    · exact ⟨m, by unfold validate_template; rw [hcr, err_bind]⟩
    · refine ⟨"TypeError: value is not subscriptable", ?_⟩
      unfold validate_template
      rw [hcr, ok_bind]
      rfl

/-- Claim C8: `validate_template` fails (raises `ValueError`, embedded as
`Except.error`) for every template violating one of the rules — a missing
top-level field among `metadata, structure, style, formatting` (reporting
the FIRST missing field, per the loop order), a missing/non-list/empty
`structure.sections`, a section missing `id`/`title`/`order`, a duplicate
section id — and returns `True` exactly when all rules (stated
declaratively in `rulesOk`) pass.  The embedding is purely functional, so
the template is returned unchanged by construction. -/
theorem claim_C8 :
    (∀ t, validate_template t = .ok true ↔ rulesOk t = true) ∧
    (∀ t, rulesOk t = false → ∃ m, validate_template t = .error m) ∧
    (∀ kvs f, requiredFields.find? (fun f2 => ! dHasKey kvs f2) = some f →
      validate_template (.obj kvs) = .error ("Missing required field: " ++ f)) := by
  refine ⟨validate_ok_iff, validate_err_of_rules_false, ?_⟩
  intro kvs f hf
  rw [validate_obj_eq, hf]

theorem claim_C8_witness :
    validate_template (Val.obj [("metadata", .obj []),
      ("structure", .obj [("sections", .arr [.obj [("id", .str "a"),
        ("title", .str "A"), ("order", .num 1)]])]),
      ("style", .obj []), ("formatting", .obj [])]) = .ok true ∧
    validate_template (.obj [("metadata", Val.obj [])]) =
      .error ("Missing required field: " ++ "structure") :=
  ⟨(claim_C8.1 _).mpr rfl, claim_C8.2.2 [("metadata", Val.obj [])] "structure" rfl⟩

/-- Claim C9: for every template `t` accepted by `validate_template`,
`import_template (export_template t)` returns a template structurally equal
to `t` (`export_template` is `json.dumps`, `import_template` is
`json.loads` followed by re-validation). -/
theorem claim_C9 (t : Val) (h : validate_template t = .ok true) :
    import_template (export_template t) = .ok t := by
  unfold import_template export_template
  rw [loads_dumps]
  rw [show ((Except.ok t >>= fun template =>
    validate_template template >>= fun _ => Except.ok template) : Except String Val) =
    (validate_template t >>= fun _ => Except.ok t) from rfl]
  rw [h]
  rfl

theorem claim_C9_witness :
    import_template (export_template (Val.obj [("metadata", .obj [("name", .str "T")]),
      ("structure", .obj [("sections", .arr [.obj [("id", .str "s1"),
        ("title", .str "S"), ("order", .num 1)]])]),
      ("style", .obj []), ("formatting", .obj [("font_size", .num 12)])])) =
    .ok (Val.obj [("metadata", .obj [("name", .str "T")]),
      ("structure", .obj [("sections", .arr [.obj [("id", .str "s1"),
        ("title", .str "S"), ("order", .num 1)]])]),
      ("style", .obj []), ("formatting", .obj [("font_size", .num 12)])]) :=
  claim_C9 _ rfl

/-! ## Section operations: `reorder_sections`, `add_section`, invariants -/

theorem filterMap_if_eq_map_filter {α β : Type} (p : α → Bool) (g : α → β) (l : List α) :
    l.filterMap (fun a => if p a then some (g a) else none) = (l.filter p).map g := by
  induction l with
  | nil => rfl
  | cons a l ih =>
    rw [List.filterMap_cons, List.filter_cons]
    by_cases h : p a
    · rw [if_pos h, if_pos h, List.map_cons, ih]
    · rw [if_neg h, if_neg h, ih]

theorem filter_sectId_unique (sections : List Sect) (sid : String)
    (hnd : (sections.map sectionIdVal).Nodup)
    (hhas : hasSectionWithId sections sid = true) :
    ∃ s, sections.filter (fun s => sectIdIs s sid) = [s] ∧
      sections.find? (fun s => sectIdIs s sid) = some s ∧
      sectionIdVal s = .str sid := by
  induction sections with
  | nil => simp [hasSectionWithId] at hhas
  | cons s0 rest ih =>
    rw [List.map_cons] at hnd
    have hnd0 := List.nodup_cons.mp hnd
    by_cases h0 : sectIdIs s0 sid = true
    · have hid0 : sectionIdVal s0 = .str sid := by simpa [sectIdIs] using h0
      refine ⟨s0, ?_, ?_, hid0⟩
      · rw [List.filter_cons, if_pos (by simpa using h0)]
        have hrest : rest.filter (fun s => sectIdIs s sid) = [] := by
          rw [List.filter_eq_nil_iff]
          intro s hs hcontra
          have hids : sectionIdVal s = .str sid := by simpa [sectIdIs] using hcontra
          exact hnd0.1 (by rw [hid0, ← hids]; exact List.mem_map_of_mem _ hs)
        rw [hrest]
      · simp [List.find?_cons, h0]
    · have hhas2 : hasSectionWithId rest sid = true := by
        rw [hasSectionWithId] at hhas ⊢
        simp only [List.any_cons, Bool.or_eq_true] at hhas
        rcases hhas with h | h
        · exact absurd h h0
        · exact h
      obtain ⟨s, h1, h2, h3⟩ := ih hnd0.2 hhas2
      have hf0 : sectIdIs s0 sid = false := Bool.eq_false_iff.mpr h0
      refine ⟨s, ?_, ?_, h3⟩
      · rw [List.filter_cons, if_neg (by simpa using h0), h1]
      · simp [List.find?_cons, hf0, h2]

theorem lastSectionWithId_eq (sections : List Sect) (sid : String)
    (hnd : (sections.map sectionIdVal).Nodup)
    (hhas : hasSectionWithId sections sid = true) :
    lastSectionWithId sections sid = (sections.find? (fun s => sectIdIs s sid)).getD [] := by
  obtain ⟨s, h1, h2, _⟩ := filter_sectId_unique sections sid hnd hhas
  rw [lastSectionWithId, h1, h2]
  rfl

theorem lastIdxOf_cons_not_mem (t : List String) (x y : String) (hx : x ∉ t) :
    lastIdxOf (y :: t) x = 0 := by
  rw [lastIdxOf]
  simp [hx]

theorem lastIdxOf_append_self (pre t : List String) (sid : String) (hsid : sid ∉ t) :
    lastIdxOf (pre ++ sid :: t) sid = pre.length := by
  induction pre with
  | nil => exact lastIdxOf_cons_not_mem t sid sid hsid
  | cons y pre ih =>
    rw [List.cons_append, lastIdxOf, if_pos (by simp), ih]
    rfl

theorem reorderGo_eq (sections : List Sect)
    (hnd : (sections.map sectionIdVal).Nodup) :
    ∀ (no pre : List String), (pre ++ no).Nodup →
    (no.filterMap (fun sid =>
      if hasSectionWithId sections sid then
        some (dset (lastSectionWithId sections sid) "order"
          (.num ((lastIdxOf (pre ++ no) sid : Int) + 1)))
      else none)) = reorderSpecGo sections no (pre.length + 1) := by
  intro no
  induction no with
  | nil => intro pre _; rfl
  | cons sid t ih =>
    intro pre hnod
    have hsid_t : sid ∉ t := by
      have := (List.nodup_append.mp hnod).2.1
      exact (List.nodup_cons.mp this).1
    have hlidx : lastIdxOf (pre ++ sid :: t) sid = pre.length :=
      lastIdxOf_append_self pre t sid hsid_t
    rw [List.filterMap_cons, reorderSpecGo]
    by_cases hhas : hasSectionWithId sections sid = true
    · obtain ⟨s, hfil, hfind, hid⟩ := filter_sectId_unique sections sid hnd hhas
      have hlast : lastSectionWithId sections sid = s := by
        rw [lastSectionWithId, hfil]
        rfl
      rw [if_pos hhas, hfind, hlast, hlidx]
      have htail : (t.filterMap (fun sid2 =>
          if hasSectionWithId sections sid2 then
            some (dset (lastSectionWithId sections sid2) "order"
              (.num ((lastIdxOf (pre ++ sid :: t) sid2 : Int) + 1)))
          else none)) = reorderSpecGo sections t (pre.length + 1 + 1) := by
        have hre : pre ++ sid :: t = (pre ++ [sid]) ++ t := by simp
        simp only [hre]
        have := ih (pre ++ [sid]) (by simpa using hnod)
        simpa using this
      rw [htail]
      norm_num
    · have hfind : sections.find? (fun s => sectIdIs s sid) = none := by
        rw [List.find?_eq_none]
        intro s hs hcontra
        exact hhas (by
          rw [hasSectionWithId]
          exact List.any_eq_true.mpr ⟨s, hs, hcontra⟩)
      rw [if_neg hhas, hfind]
      have hre : pre ++ sid :: t = (pre ++ [sid]) ++ t := by simp
      simp only [hre]
      have := ih (pre ++ [sid]) (by simpa using hnod)
      simpa using this

/-- Claim C2 counterexample: on a template with one section `a`,
`reorder_sections(["a", "a"])` appends two references to the same mutated
dict, both ending with `order = 2`, while the claim (1-based position in
the id list) predicts orders 1 and 2.  So the claim fails for id lists with
duplicates. -/
theorem claim_C2_counterexample :
    reorder_sections [[("id", Val.str "a"), ("order", Val.num 1)]] ["a", "a"] =
      [[("id", Val.str "a"), ("order", Val.num 2)],
       [("id", Val.str "a"), ("order", Val.num 2)]] ∧
    reorder_sections [[("id", Val.str "a"), ("order", Val.num 1)]] ["a", "a"] ≠
      [[("id", Val.str "a"), ("order", Val.num 1)],
       [("id", Val.str "a"), ("order", Val.num 2)]] := by
  exact ⟨rfl, by decide⟩

/-- Claim C2 (amended: the id list must be duplicate-free, and the template
satisfies the documented unique-ids invariant): `reorder_sections` keeps
exactly the sections whose id occurs in `new_order`, in `new_order` order,
with `order` reassigned to the id's 1-based position in `new_order`
(`reorder_sections_spec` is that specification verbatim); and on sections
`[a, b, c]` (orders 1, 2, 3), `reorder_sections ["b", "a"]` yields
`[(b, order 1), (a, order 2)]`, dropping `c`. -/
theorem claim_C2 :
    (∀ (sections : List Sect) (new_order : List String),
      (sections.map sectionIdVal).Nodup → new_order.Nodup →
      reorder_sections sections new_order = reorder_sections_spec sections new_order) ∧
    reorder_sections
      [[("id", Val.str "a"), ("order", Val.num 1)],
       [("id", Val.str "b"), ("order", Val.num 2)],
       [("id", Val.str "c"), ("order", Val.num 3)]] ["b", "a"] =
      [[("id", Val.str "b"), ("order", Val.num 1)],
       [("id", Val.str "a"), ("order", Val.num 2)]] := by
  constructor
  · intro sections new_order hnd hno
    rw [reorder_sections, reorder_sections_spec]
    have := reorderGo_eq sections hnd new_order [] (by simpa using hno)
    simpa using this
  · rfl

theorem claim_C2_witness :
    reorder_sections
      [[("id", Val.str "a"), ("order", Val.num 1)],
       [("id", Val.str "b"), ("order", Val.num 2)]] ["b", "a", "x"] =
      reorder_sections_spec
        [[("id", Val.str "a"), ("order", Val.num 1)],
         [("id", Val.str "b"), ("order", Val.num 2)]] ["b", "a", "x"] :=
  claim_C2.1 _ _ (by decide) (by decide)

theorem update_section_ids (sections : List Sect) (sid : String)
    (updates : List (String × Val)) (h : dHasKey updates "id" = false) :
    (update_section sections sid updates).map sectionIdVal =
      sections.map sectionIdVal := by
  induction sections with
  | nil => rfl
  | cons s rest ih =>
    rw [update_section]
    by_cases hmatch : sectIdIs s sid = true
    · rw [if_pos hmatch, List.map_cons, List.map_cons]
      congr 1
      rw [sectionIdVal, sectionIdVal, dget_dupdate_not_in updates "id" h s]
    · rw [if_neg hmatch, List.map_cons, List.map_cons, ih]

theorem mem_of_getLast2 {α : Type} (l : List α) (a : α) (h : l.getLast? = some a) :
    a ∈ l := by
  induction l with
  | nil => simp [List.getLast?] at h
  | cons x t ih =>
    cases t with
    | nil =>
      simp [List.getLast?] at h
      simp [h]
    | cons y t2 =>
      rw [List.getLast?_cons_cons] at h
      exact List.mem_cons_of_mem x (ih h)

theorem lastSectionWithId_id (sections : List Sect) (sid : String)
    (hhas : hasSectionWithId sections sid = true) :
    sectionIdVal (lastSectionWithId sections sid) = .str sid := by
  have hex : ∃ s ∈ sections, sectIdIs s sid = true := by
    simpa [hasSectionWithId, List.any_eq_true] using hhas
  obtain ⟨s, hs, hp⟩ := hex
  have hmemf : s ∈ sections.filter (fun s => sectIdIs s sid) :=
    List.mem_filter.mpr ⟨hs, hp⟩
  rw [lastSectionWithId]
  rcases hl : (sections.filter (fun s => sectIdIs s sid)).getLast? with _ | s2
  · rcases hfil : sections.filter (fun s => sectIdIs s sid) with _ | ⟨a, l⟩
    · rw [hfil] at hmemf
      exact absurd hmemf (by simp)
    · rw [hfil] at hl
      simp [List.getLast?] at hl
  · have hmem2 : s2 ∈ sections.filter (fun s => sectIdIs s sid) :=
      mem_of_getLast2 _ _ hl
    have := (List.mem_filter.mp hmem2).2
    simpa [sectIdIs] using this

theorem reorder_like_ids (sections : List Sect) (F : String → Val) (no : List String) :
    ((no.filterMap (fun sid =>
      if hasSectionWithId sections sid then
        some (dset (lastSectionWithId sections sid) "order" (F sid))
      else none)).map sectionIdVal) =
      (no.filter (fun sid => hasSectionWithId sections sid)).map (fun sid => Val.str sid) := by
  induction no with
  | nil => rfl
  | cons sid t ih =>
    rw [List.filterMap_cons, List.filter_cons]
    by_cases hhas : hasSectionWithId sections sid = true
    · rw [if_pos hhas, if_pos hhas, List.map_cons, List.map_cons, ih]
      congr 1
      rw [sectionIdVal, dget_dset_ne _ "order" "id" _ (by decide)]
      exact lastSectionWithId_id sections sid hhas
    · rw [if_neg hhas, if_neg hhas, ih]

theorem reorder_sections_ids (sections : List Sect) (no : List String) :
    (reorder_sections sections no).map sectionIdVal =
      (no.filter (fun sid => hasSectionWithId sections sid)).map (fun sid => Val.str sid) := by
  rw [reorder_sections]
  exact reorder_like_ids sections
    (fun sid => .num ((lastIdxOf no sid : Int) + 1)) no

theorem sectionIdVal_add_section (sections : List Sect) (sect : Sect) :
    ∃ s4, add_section sections sect =
      List.insertionSort (fun a b => sectOrderKey a < sectOrderKey b) (sections ++ [s4]) ∧
      sectionIdVal s4 = addSectionEffectiveId sections sect := by
  rw [add_section, addSectionEffectiveId]
  by_cases h1 : dHasKey sect "id" = true
  · rw [if_pos h1, if_pos h1]
    refine ⟨_, rfl, ?_⟩
    rw [sectionIdVal, sectionIdVal]
    congr 1
    split
    · split
      · split
        · rfl
        · rw [dget_dset_ne _ "content_type" "id" _ (by decide)]
      · split
        · rw [dget_dset_ne _ "required" "id" _ (by decide)]
        · rw [dget_dset_ne _ "content_type" "id" _ (by decide),
            dget_dset_ne _ "required" "id" _ (by decide)]
    · split
      · split
        · rw [dget_dset_ne _ "order" "id" _ (by decide)]
        · rw [dget_dset_ne _ "content_type" "id" _ (by decide),
            dget_dset_ne _ "order" "id" _ (by decide)]
      · split
        · rw [dget_dset_ne _ "required" "id" _ (by decide),
            dget_dset_ne _ "order" "id" _ (by decide)]
        · rw [dget_dset_ne _ "content_type" "id" _ (by decide),
            dget_dset_ne _ "required" "id" _ (by decide),
            dget_dset_ne _ "order" "id" _ (by decide)]
  · rw [if_neg h1, if_neg h1]
    refine ⟨_, rfl, ?_⟩
    rw [sectionIdVal]
    have hbase : dget (dset sect "id"
        (Val.str ("section_" ++ toString (sections.length + 1)))) "id" =
        some (Val.str ("section_" ++ toString (sections.length + 1))) :=
      dget_dset_self sect "id" _
    split
    · split
      · split
        · rw [hbase]; rfl
        · rw [dget_dset_ne _ "content_type" "id" _ (by decide), hbase]; rfl
      · split
        · rw [dget_dset_ne _ "required" "id" _ (by decide), hbase]; rfl
        · rw [dget_dset_ne _ "content_type" "id" _ (by decide),
            dget_dset_ne _ "required" "id" _ (by decide), hbase]; rfl
    · split
      · split
        · rw [dget_dset_ne _ "order" "id" _ (by decide), hbase]; rfl
        · rw [dget_dset_ne _ "content_type" "id" _ (by decide),
            dget_dset_ne _ "order" "id" _ (by decide), hbase]; rfl
      · split
        · rw [dget_dset_ne _ "required" "id" _ (by decide),
            dget_dset_ne _ "order" "id" _ (by decide), hbase]; rfl
        · rw [dget_dset_ne _ "content_type" "id" _ (by decide),
            dget_dset_ne _ "required" "id" _ (by decide),
            dget_dset_ne _ "order" "id" _ (by decide), hbase]; rfl

/-- Claim C5 counterexample: `add_section` with an omitted id synthesizes
`section_<n+1>`, which is not guaranteed fresh — adding to a template whose
only section is already named `section_2` produces duplicate ids. -/
theorem claim_C5_counterexample :
    ¬ ((add_section [[("id", Val.str "section_2"), ("order", Val.num 1)]] []).map
        sectionIdVal).Nodup ∧
    (add_section [[("id", Val.str "section_2"), ("order", Val.num 1)]] []).map
        sectionIdVal = [Val.str "section_2", Val.str "section_2"] := by
  exact ⟨by decide, by decide⟩

/-- Claim C5 (amended): `remove_section` and `update_section` (with updates
not touching `id`) always preserve distinctness of section ids;
`reorder_sections` preserves it provided the supplied id list has no
duplicates; `add_section` preserves it provided the effective id of the new
section (the given one, or the synthesized `section_<n+1>`) does not
already occur — the synthesized id is NOT guaranteed fresh, and a clashing
explicit id is inserted unchecked. -/
theorem claim_C5 :
    (∀ (sections : List Sect) (sid : String),
      (sections.map sectionIdVal).Nodup →
      ((remove_section sections sid).map sectionIdVal).Nodup) ∧
    (∀ (sections : List Sect) (sid : String) (updates : List (String × Val)),
      (sections.map sectionIdVal).Nodup → dHasKey updates "id" = false →
      ((update_section sections sid updates).map sectionIdVal).Nodup) ∧
    (∀ (sections : List Sect) (new_order : List String),
      (sections.map sectionIdVal).Nodup → new_order.Nodup →
      ((reorder_sections sections new_order).map sectionIdVal).Nodup) ∧
    (∀ (sections : List Sect) (sect : Sect),
      (sections.map sectionIdVal).Nodup →
      addSectionEffectiveId sections sect ∉ sections.map sectionIdVal →
      ((add_section sections sect).map sectionIdVal).Nodup) := by
  refine ⟨?_, ?_, ?_, ?_⟩
  · intro sections sid hnd
    exact List.Nodup.sublist (List.Sublist.map sectionIdVal (List.filter_sublist _)) hnd
  · intro sections sid updates hnd hupd
    rw [update_section_ids sections sid updates hupd]
    exact hnd
  · intro sections new_order hnd hno
    rw [reorder_sections_ids]
    exact List.Nodup.map (fun a b h => by injection h)
      (List.Nodup.filter _ hno)
  · intro sections sect hnd hfresh
    obtain ⟨s4, heq, hid⟩ := sectionIdVal_add_section sections sect
    rw [heq]
    have hperm : (List.insertionSort (fun a b => sectOrderKey a < sectOrderKey b)
        (sections ++ [s4])).map sectionIdVal |>.Perm
        ((sections ++ [s4]).map sectionIdVal) :=
      (List.perm_insertionSort _ _).map sectionIdVal
    rw [List.Perm.nodup_iff hperm, List.map_append]
    rw [List.nodup_append]
    refine ⟨hnd, by simp, ?_⟩
    intro a ha
    simp only [List.map_cons, List.map_nil, List.mem_singleton]
    intro hb
    rw [hb, hid] at ha
    exact hfresh ha

theorem claim_C5_witness :
    ((remove_section [[("id", Val.str "a")], [("id", Val.str "b")]] "a").map
      sectionIdVal).Nodup ∧
    ((add_section [[("id", Val.str "a"), ("order", Val.num 1)]]
      [("id", Val.str "b")]).map sectionIdVal).Nodup :=
  ⟨claim_C5.1 [[("id", Val.str "a")], [("id", Val.str "b")]] "a" (by decide),
   claim_C5.2.2.2 [[("id", Val.str "a"), ("order", Val.num 1)]]
     [("id", Val.str "b")] (by decide) (by decide)⟩

/-! ## Citation extraction and list formatting -/

theorem extractCitationsGo_eq (l : List (List Char)) :
    ∀ acc, extractCitationsGo l acc =
      acc ++ l.filterMap (fun tok =>
        if tok.contains ':' then some (mkCitation tok) else none) := by
  induction l with
  | nil => intro acc; simp [extractCitationsGo]
  | cons tok rest ih =>
    intro acc
    rw [extractCitationsGo, List.filterMap_cons]
    by_cases h : tok.contains ':' = true
    · rw [if_pos h, if_pos h, ih]
      simp
    · rw [if_neg h, if_neg h, ih]

/-- Claim C3: `_extract_citations` yields one citation per regex-matched
bracketed span whose token contains a colon, in text order, splitting at
the first colon into trimmed `source`/`location` with the raw token as
`full_citation`; colon-free bracketed spans yield nothing (and no error —
the function is total).  Instances: the spec's concrete example, and a
colon-free bracket yielding zero citations. -/
theorem claim_C3 :
    (∀ text : String, extract_citations text =
      ((findallCitationTokens text.data).filter (fun tok => tok.contains ':')).map
        mkCitation) ∧
    extract_citations "Revenue grew [Acme Report: page 4]." =
      [{ source := "Acme Report", location := "page 4",
         full_citation := "Acme Report: page 4" }] ∧
    extract_citations "Revenue grew [no colon brackets] here." = [] := by
  refine ⟨?_, by decide, by decide⟩
  intro text
  rw [extract_citations, extractCitationsGo_eq, filterMap_if_eq_map_filter]
  simp

theorem formatListGo_eq (l : List String) :
    ∀ acc, formatListGo l acc = acc ++ l.filterMap formatListLine := by
  induction l with
  | nil => intro acc; simp [formatListGo]
  | cons line rest ih =>
    intro acc
    rcases h : formatListLine line with _ | item
    · simp [formatListGo, h, ih, List.filterMap_cons]
    · simp [formatListGo, h, ih, List.filterMap_cons]

/-- Claim C6 counterexample: the digit rule in `_format_content` keeps any
stripped line whose FIRST character is a digit and which contains a `.`
ANYWHERE (taking the text after the first `.`), not only lines with a
leading digit immediately followed by `.` as the claim states.  On
`"1 see section 2. tail"` the code yields `["tail"]` while the claim's
reading yields the single-item fallback with the raw text. -/
theorem claim_C6_counterexample :
    format_content "1 see section 2. tail" "list" = .items ["tail"] ∧
    format_list_claim "1 see section 2. tail" = ["1 see section 2. tail"] ∧
    format_content "1 see section 2. tail" "list" ≠
      .items (format_list_claim "1 see section 2. tail") := by
  refine ⟨by decide, by decide, by decide⟩

/-- Claim C6 (amended): list formatting keeps, per stripped line, bullet
lines (`-`, `•`, `*`, minus the first character, trimmed) and lines whose
first character is a digit AND that contain a `.` anywhere (the part after
the FIRST `.`, trimmed); all other lines are discarded, and if no line is
kept the result is the single-item list holding the raw text.  The loop
equals the declarative filter (`formatListLine` per line), and the spec's
concrete example holds, as do instances separating the amended digit rule
from the original claim's. -/
theorem claim_C6 :
    (∀ content : String, format_content content "list" =
      .items (let items := (pySplitLines content).filterMap formatListLine
              if items = [] then [content] else items)) ∧
    format_content "- first\n- second\n3. third" "list" =
      .items ["first", "second", "third"] ∧
    formatListLine "1 see section 2. tail" = some "tail" ∧
    formatListLine "1983 was a good year" = none ∧
    formatListLine "  * starred  " = some "starred" := by
  refine ⟨?_, by decide, by decide, by decide, by decide⟩
  intro content
  rw [format_content, if_pos rfl, format_content_list, formatListGo_eq]
  simp

/-! ## Content-quality scoring -/

/-- Claim C10: `validate_content_quality` reports `citations_count` equal
to the sum of per-section citation-list lengths, and its `overall_score`
always lies in `[25, 100]`: the citation component is in `[0, 50]`
(capped at 50), the structure component is 15 or 30, and the quality
component is 10 or 20. -/
theorem claim_C10 (sections : List QSection) :
    (validate_content_quality sections).citations_count =
      (sections.map (fun s => s.citations.length)).sum ∧
    (0 : ℚ) ≤ citationScoreQ ((sections.map (fun s => s.citations.length)).sum)
      sections.length ∧
    citationScoreQ ((sections.map (fun s => s.citations.length)).sum)
      sections.length ≤ 50 ∧
    (structureScoreQ sections.length = 15 ∨ structureScoreQ sections.length = 30) ∧
    (qualityScoreQ (qIssues sections) = 10 ∨ qualityScoreQ (qIssues sections) = 20) ∧
    25 ≤ (validate_content_quality sections).overall_score ∧
    (validate_content_quality sections).overall_score ≤ 100 := by
  have hc0 : (0 : ℚ) ≤ citationScoreQ ((sections.map (fun s => s.citations.length)).sum)
      sections.length := by
    rw [citationScoreQ]
    apply le_min
    · positivity
    · norm_num
  have hc50 : citationScoreQ ((sections.map (fun s => s.citations.length)).sum)
      sections.length ≤ 50 := min_le_right _ _
  have hs : structureScoreQ sections.length = 15 ∨ structureScoreQ sections.length = 30 := by
    rw [structureScoreQ]
    by_cases h : sections.length ≥ 3
    · right; rw [if_pos h]
    · left; rw [if_neg h]
  have hq : qualityScoreQ (qIssues sections) = 10 ∨ qualityScoreQ (qIssues sections) = 20 := by
    rw [qualityScoreQ]
    by_cases h : (qIssues sections).length = 0
    · right; rw [if_pos h]
    · left; rw [if_neg h]
  have hov : (validate_content_quality sections).overall_score =
      citationScoreQ ((sections.map (fun s => s.citations.length)).sum) sections.length +
      structureScoreQ sections.length + qualityScoreQ (qIssues sections) := rfl
  refine ⟨rfl, hc0, hc50, hs, hq, ?_, ?_⟩
  · rw [hov]
    rcases hs with h1 | h1 <;> rcases hq with h2 | h2 <;> rw [h1, h2] <;> linarith
  · rw [hov]
    rcases hs with h1 | h1 <;> rcases hq with h2 | h2 <;> rw [h1, h2] <;> linarith

/-! ## Refinement fallback -/

theorem dget_append_single {a : Type} (d : List (String × a)) (k k2 : String) (v : a)
    (h : k ≠ k2) : dget (d ++ [(k, v)]) k2 = dget d k2 := by
  induction d with
  | nil => simp [dget, h]
  | cons kv rest ih =>
    obtain ⟨k3, v3⟩ := kv
    by_cases h3 : k3 = k2
    · simp [dget, h3]
    · simp [dget, h3, ih]

theorem refineFallback_obj (kvs md : List (String × Val)) (e : String)
    (hmd : dget kvs "metadata" = some (.obj md)) :
    refineFallback (.obj kvs) e =
      .ok (.obj (dset kvs "metadata" (.obj (dset md "refinement_error" (.str e))))) := by
  show (match dget kvs "metadata" with
        | some (Val.obj md2) =>
          Except.ok (Val.obj (dset kvs "metadata"
            (Val.obj (dset md2 "refinement_error" (Val.str e)))))
        | some _ => Except.error "TypeError: value does not support item assignment"
        | none => Except.error "KeyError: metadata") = _
  rw [hmd]

/-- Claim C4 counterexample: the fallback in `refine_content` fires only on
a raised exception (AI failure or `json.loads` failure); a reply that
PARSES as JSON but is not the expected generated-content structure is
returned as-is.  With the AI replying `"[]"`, the result is the bare JSON
array — not the input annotated with a `refinement_error`, and not
generated-content shaped. -/
theorem claim_C4_counterexample :
    loads "[]" = .ok (.arr []) ∧
    refine_content (.obj c4cur) (.ok "[]") = .ok (.arr []) ∧
    isGeneratedContentShape (.arr []) = false ∧
    (∀ msg : String, refine_content (.obj c4cur) (.ok "[]") ≠
      refineFallback (.obj c4cur) msg) ∧
    refine_content (.obj c4cur) (.ok "[]") ≠ .ok (.obj c4cur) := by
  have hL : refine_content (.obj c4cur) (.ok "[]") = .ok (.arr []) := by rfl
  refine ⟨by rfl, hL, by decide, ?_, ?_⟩
  · intro msg h
    have hR : refineFallback (.obj c4cur) msg =
        .ok (.obj (dset c4cur "metadata"
          (.obj (dset [("generated_at", Val.str "t")] "refinement_error" (.str msg))))) :=
      refineFallback_obj c4cur [("generated_at", Val.str "t")] msg rfl
    rw [hL, hR] at h
    have h2 : Val.arr [] = Val.obj (dset c4cur "metadata"
        (.obj (dset [("generated_at", Val.str "t")] "refinement_error" (.str msg)))) := by
      injection h
    exact Val.noConfusion h2
  · intro h
    rw [hL] at h
    have h2 : Val.arr [] = Val.obj c4cur := by injection h
    exact Val.noConfusion h2

/-- Claim C4 (amended): when the AI call raises or its reply fails to
PARSE as JSON (an actual exception — no structural check is performed),
`refine_content` returns the input object with exactly one field added:
`metadata.refinement_error`, holding the failure message, appended to a
dict-valued `metadata` that did not already carry that key.  Every other
top-level entry and every other metadata entry is unchanged, and the
result is `ok` (no exception propagates). -/
theorem claim_C4 (kvs md : List (String × Val)) (e : String)
    (oracle : Except String String)
    (hmd : dget kvs "metadata" = some (.obj md))
    (hfresh : dHasKey md "refinement_error" = false)
    (hfail : oracle = .error e ∨ ∃ t, oracle = .ok t ∧ loads t = .error e) :
    refine_content (.obj kvs) oracle =
      .ok (.obj (dset kvs "metadata" (.obj (md ++ [("refinement_error", .str e)])))) ∧
    (∀ k, k ≠ "metadata" →
      dget (dset kvs "metadata" (.obj (md ++ [("refinement_error", .str e)]))) k =
        dget kvs k) ∧
    dget (dset kvs "metadata" (.obj (md ++ [("refinement_error", .str e)]))) "metadata" =
      some (.obj (md ++ [("refinement_error", .str e)])) ∧
    (∀ k, k ≠ "refinement_error" →
      dget (md ++ [("refinement_error", .str e)]) k = dget md k) := by
  have hfb : refineFallback (.obj kvs) e =
      .ok (.obj (dset kvs "metadata" (.obj (md ++ [("refinement_error", .str e)])))) := by
    rw [refineFallback_obj kvs md e hmd,
      dset_fresh_append md "refinement_error" (.str e) hfresh]
  refine ⟨?_, ?_, ?_, ?_⟩
  · rcases hfail with h | ⟨t, hok, hload⟩
    · subst h
      exact hfb
    · subst hok
      have h1 : refine_content (.obj kvs) (.ok t) =
          (match loads t with
           | .ok refined => Except.ok refined
           | .error e2 => refineFallback (.obj kvs) e2) := rfl
      rw [h1, hload]
      exact hfb
  · exact fun k hk => dget_dset_ne kvs "metadata" k _ (Ne.symm hk)
  · exact dget_dset_self kvs "metadata" _
  · exact fun k hk => dget_append_single md "refinement_error" k (.str e) (Ne.symm hk)

/-- Witness for C4 at a concrete input: a failing AI call on a two-key
content object appends exactly the `refinement_error` entry. -/
theorem claim_C4_witness :
    refine_content (.obj c4cur) (.error "boom") =
      .ok (.obj (dset c4cur "metadata"
        (.obj ([("generated_at", Val.str "t")] ++ [("refinement_error", .str "boom")])))) :=
  (claim_C4 c4cur [("generated_at", Val.str "t")] "boom" (.error "boom")
    (by decide) (by decide) (Or.inl rfl)).1

/-! ## Section generation -/

theorem mkEntry_err (oracle : Nat → Except String String) (cm : String)
    (am : List String) (i : Nat) (s : TSection) (e : String)
    (h : oracle i = .error e) : mkEntry oracle cm am i s = mkErrSection e cm am s := by
  unfold mkEntry
  rw [h]

theorem mkEntry_ok (oracle : Nat → Except String String) (cm : String)
    (am : List String) (i : Nat) (s : TSection) (t : String)
    (h : oracle i = .ok t) : mkEntry oracle cm am i s = mkOkSection t s := by
  unfold mkEntry
  rw [h]

theorem generateGo_eq (oracle : Nat → Except String String) (cm : String)
    (am : List String) (l : List TSection) :
    ∀ (i : Nat) (acc : List (String × GenSection)),
      (∀ s ∈ l, dHasKey acc s.id = false) →
      (l.map (fun s => s.id)).Nodup →
      generateGo oracle cm am l i acc = acc ++ genEntryList oracle cm am l i := by
  induction l with
  | nil => intro i acc _ _; simp [generateGo, genEntryList]
  | cons s rest ih =>
    intro i acc hfresh hnd
    rw [List.map_cons, List.nodup_cons] at hnd
    have hfr2 : ∀ s2 ∈ rest,
        dHasKey (acc ++ [(s.id, mkEntry oracle cm am i s)]) s2.id = false := by
      intro s2 hs2
      have h1 := hfresh s2 (List.mem_cons_of_mem s hs2)
      rw [dHasKey] at h1 ⊢
      rw [List.any_append]
      simp only [Bool.or_eq_false_iff]
      refine ⟨h1, ?_⟩
      simp only [List.any_cons, List.any_nil, Bool.or_false, decide_eq_false_iff_not]
      intro hcontra
      exact hnd.1 (by rw [hcontra]; exact List.mem_map.mpr ⟨s2, hs2, rfl⟩)
    show generateGo oracle cm am rest (i + 1) (dset acc s.id (mkEntry oracle cm am i s)) =
      acc ++ genEntryList oracle cm am (s :: rest) i
    rw [dset_fresh_append acc s.id _ (hfresh s (List.mem_cons_self s rest)),
      ih (i + 1) _ hfr2 hnd.2]
    simp [genEntryList]

theorem generate_content_sections (tname : Option String) (tsections : List TSection)
    (sources : List String) (oracle : Nat → Except String String) (cm : String)
    (am : List String) (hnd : (tsections.map (fun s => s.id)).Nodup) :
    (generate_content tname tsections sources oracle cm am).sections =
      genEntryList oracle cm am tsections 0 := by
  show generateGo oracle cm am tsections 0 [] = _
  rw [generateGo_eq oracle cm am tsections 0 [] (fun s _ => rfl) hnd]
  simp

theorem genEntryList_keys (oracle : Nat → Except String String) (cm : String)
    (am : List String) (l : List TSection) :
    ∀ i, (genEntryList oracle cm am l i).map Prod.fst = l.map (fun s => s.id) := by
  induction l with
  | nil => intro i; rfl
  | cons s rest ih => intro i; simp [genEntryList, ih]

theorem genEntryList_length (oracle : Nat → Except String String) (cm : String)
    (am : List String) (l : List TSection) :
    ∀ i, (genEntryList oracle cm am l i).length = l.length := by
  induction l with
  | nil => intro i; rfl
  | cons s rest ih => intro i; simp [genEntryList, ih]

theorem genEntryList_get (oracle : Nat → Except String String) (cm : String)
    (am : List String) (l : List TSection) :
    ∀ i j, (genEntryList oracle cm am l i)[j]? =
      (l[j]?).map (fun s => (s.id, mkEntry oracle cm am (i + j) s)) := by
  induction l with
  | nil => intro i j; simp [genEntryList]
  | cons s rest ih =>
    intro i j
    cases j with
    | zero => simp [genEntryList]
    | succ j =>
      simp only [genEntryList, List.getElem?_cons_succ]
      rw [ih (i + 1) j]
      have harith : i + 1 + j = i + (j + 1) := by omega
      rw [harith]

/-- Claim C1: for a template whose section ids are distinct, if the AI
call fails for exactly section `k` (index in template order) and succeeds
for every other section, `generate_content` still returns a document —
the embedding is total, so no exception escapes — whose sections mapping
has one entry per template section id, in template order; entry `k` is the
error entry (content a non-empty string starting with the synthesized
error message, empty citations, zero word count) and every other entry is
the normally formatted one for its AI text. -/
theorem claim_C1 (tname : Option String) (tsections : List TSection)
    (sources : List String) (oracle : Nat → Except String String)
    (cm : String) (am : List String) (k : Nat) (e : String)
    (hnd : (tsections.map (fun s => s.id)).Nodup)
    (hk : k < tsections.length)
    (herr : oracle k = .error e)
    (hok : ∀ j, j < tsections.length → j ≠ k → ∃ t, oracle j = .ok t) :
    (generate_content tname tsections sources oracle cm am).sections.map Prod.fst =
      tsections.map (fun s => s.id) ∧
    (generate_content tname tsections sources oracle cm am).sections.length =
      tsections.length ∧
    (∃ s, tsections[k]? = some s ∧
      (generate_content tname tsections sources oracle cm am).sections[k]? =
        some (s.id, mkErrSection e cm am s)) ∧
    (∀ s : TSection, (mkErrSection e cm am s).citations = [] ∧
      (mkErrSection e cm am s).word_count = 0 ∧
      ∃ m, (mkErrSection e cm am s).content = .txt m ∧ 0 < m.length) ∧
    (∀ j, j < tsections.length → j ≠ k →
      ∃ t s, oracle j = .ok t ∧ tsections[j]? = some s ∧
        (generate_content tname tsections sources oracle cm am).sections[j]? =
          some (s.id, mkOkSection t s)) := by
  have hsec := generate_content_sections tname tsections sources oracle cm am hnd
  refine ⟨?_, ?_, ?_, ?_, ?_⟩
  · rw [hsec]
    exact genEntryList_keys oracle cm am tsections 0
  · rw [hsec]
    exact genEntryList_length oracle cm am tsections 0
  · refine ⟨tsections[k], List.getElem?_eq_getElem hk, ?_⟩
    rw [hsec, genEntryList_get oracle cm am tsections 0 k,
      List.getElem?_eq_getElem hk]
    show some ((tsections[k]).id, mkEntry oracle cm am (0 + k) tsections[k]) = _
    rw [Nat.zero_add, mkEntry_err oracle cm am k tsections[k] e herr]
  · intro s
    refine ⟨rfl, rfl, "Error generating content: " ++ transformGenError e cm am, rfl, ?_⟩
    rw [String.length_append]
    have h26 : ("Error generating content: " : String).length = 26 := rfl
    omega
  · intro j hj hne
    obtain ⟨t, ht⟩ := hok j hj hne
    refine ⟨t, tsections[j], ht, List.getElem?_eq_getElem hj, ?_⟩
    rw [hsec, genEntryList_get oracle cm am tsections 0 j,
      List.getElem?_eq_getElem hj]
    show some ((tsections[j]).id, mkEntry oracle cm am (0 + j) tsections[j]) = _
    rw [Nat.zero_add, mkEntry_ok oracle cm am j tsections[j] t ht]

/-- Witness for C1 at a concrete input: a two-section template whose first
AI call fails still yields two section entries. -/
theorem claim_C1_witness :
    (generate_content (some "T") [⟨"a", "A", "", "text"⟩, ⟨"b", "B", "", "text"⟩]
      ["f.pdf"] (fun n => if n = 0 then .error "boom" else .ok "fine")
      "m" []).sections.length = 2 :=
  (claim_C1 (some "T") [⟨"a", "A", "", "text"⟩, ⟨"b", "B", "", "text"⟩] ["f.pdf"]
    (fun n => if n = 0 then .error "boom" else .ok "fine") "m" [] 0 "boom"
    (by decide) (by decide) rfl
    (by
      intro j hj hne
      have hj2 : j < 2 := by simpa using hj
      interval_cases j
      · exact absurd rfl hne
      · exact ⟨"fine", rfl⟩)).2.1

/-! ## Renderers -/

theorem docxGo_eq (cs : List (String × GenSection)) (l : List TSection) :
    ∀ acc, docxGo cs l acc = acc ++ (l.map (docxSectionEvents cs)).flatten := by
  induction l with
  | nil => intro acc; simp [docxGo]
  | cons s rest ih => intro acc; simp [docxGo, ih]

theorem pdfGo_eq (cs : List (String × GenSection)) (l : List TSection) :
    ∀ acc, pdfGo cs l acc = acc ++ (l.map (pdfSectionEvents cs)).flatten := by
  induction l with
  | nil => intro acc; simp [pdfGo]
  | cons s rest ih => intro acc; simp [pdfGo, ih]

theorem pptxGo_eq (cs : List (String × GenSection)) (l : List TSection) :
    ∀ acc, pptxGo cs l acc = acc ++ (l.map (pptxSectionEvents cs)).flatten := by
  induction l with
  | nil => intro acc; simp [pptxGo]
  | cons s rest ih => intro acc; simp [pptxGo, ih]

/-- Claim C7 counterexample: the pptx renderer does NOT emit a citations
block for every section with a non-empty citations list — inside its
`if citations:` only the `len(citations) > 3` branch produces any output,
so a section with one to three citations contributes no citation events,
while the docx and pdf renderers do emit the labeled sub-list on the same
input. -/
theorem claim_C7_counterexample :
    (generate_pptx c7content [c7sect] "T").filter isCiteEvent = [] ∧
    dget c7content.sections c7sect.id =
      some ⟨"X", .txt "body", c7cits, 2, "text"⟩ ∧
    c7cits ≠ [] ∧ c7cits.length ≤ 3 ∧
    (generate_docx c7content [c7sect] "T").filter isCiteEvent =
      [.srcLabel, .srcBullet "• S: p1", .srcBullet "• S: p2"] ∧
    (generate_pdf c7content [c7sect] "T").filter isCiteEvent =
      [.srcLabel, .srcBullet "• S: p1", .srcBullet "• S: p2"] := by
  refine ⟨by decide, by decide, by decide, by decide, by decide, by decide⟩

/-- Claim C7 (amended): each renderer iterates the template's sections
list in template order, a fixed preamble followed by the concatenated
per-section events; a template section whose id is absent from the
content's sections contributes nothing at all.  A present section yields
its heading, then the body (bullets per item when the template says
`list` and the content is a list, one block of text otherwise), then —
for docx and pdf only — the `Sources:` label and one bullet per citation
whenever the citations list is non-empty.  The pptx renderer instead
appends a dedicated sources slide exactly when the section has MORE THAN
THREE citations, and emits no citation output for one to three. -/
theorem claim_C7 :
    (∀ (c : GeneratedContent) (ts : List TSection) (n : String),
      generate_docx c ts n =
        [.docTitle n, .metaLine ("Generated: " ++ c.generated_at),
         .metaLine ("Sources: " ++ String.intercalate ", " c.sources_used), .para ""] ++
          (ts.map (docxSectionEvents c.sections)).flatten ∧
      generate_pdf c ts n =
        [.docTitle n, .spacer, .metaLine ("Generated: " ++ c.generated_at),
         .metaLine ("Sources: " ++ String.intercalate ", " c.sources_used), .spacer] ++
          (ts.map (pdfSectionEvents c.sections)).flatten ∧
      generate_pptx c ts n =
        [.slide n, .metaLine ("Generated: " ++ c.generated_at)] ++
          (ts.map (pptxSectionEvents c.sections)).flatten) ∧
    (∀ (cs : List (String × GenSection)) (s : TSection), dget cs s.id = none →
      docxSectionEvents cs s = [] ∧ pdfSectionEvents cs s = [] ∧
      pptxSectionEvents cs s = []) ∧
    (∀ (cs : List (String × GenSection)) (s : TSection) (sc : GenSection),
      dget cs s.id = some sc →
      docxSectionEvents cs s =
        .heading s.title :: bodyEvents s.content_type sc.content ++
          citeEvents sc.citations ++ [.para ""] ∧
      pdfSectionEvents cs s =
        .heading s.title :: bodyEvents s.content_type sc.content ++
          citeEvents sc.citations ++ [.spacer]) ∧
    (∀ citations : List Citation, citations ≠ [] →
      citeEvents citations =
        .srcLabel :: citations.map (fun c => .srcBullet ("• " ++ c.full_citation))) ∧
    (∀ (cs : List (String × GenSection)) (s : TSection) (sc : GenSection),
      dget cs s.id = some sc →
      pptxSectionEvents cs s =
        .slide s.title :: pptxBodyEvents s.content_type sc.content ++
          (if sc.citations.length > 3 then
            .slide (s.title ++ " - Sources") ::
              sc.citations.map (fun c => .srcBullet ("• " ++ c.full_citation))
           else [])) ∧
    (∀ l : List String, bodyEvents "list" (.items l) =
      l.map (fun it => .bullet ("• " ++ it))) ∧
    (∀ (t ct : String), ct ≠ "list" → bodyEvents ct (.txt t) = [.para t]) := by
  refine ⟨?_, ?_, ?_, ?_, ?_, ?_, ?_⟩
  · intro c ts n
    exact ⟨by rw [generate_docx, docxGo_eq], by rw [generate_pdf, pdfGo_eq],
      by rw [generate_pptx, pptxGo_eq]⟩
  · intro cs s h
    exact ⟨by simp [docxSectionEvents, h], by simp [pdfSectionEvents, h],
      by simp [pptxSectionEvents, h]⟩
  · intro cs s sc h
    exact ⟨by simp [docxSectionEvents, h], by simp [pdfSectionEvents, h]⟩
  · intro citations h
    rw [citeEvents, if_neg]
    simp [h]
  · intro cs s sc h
    rw [show pptxSectionEvents cs s =
      .slide s.title :: pptxBodyEvents s.content_type sc.content ++
        (if sc.citations.isEmpty then []
         else if sc.citations.length > 3 then
           .slide (s.title ++ " - Sources") ::
             sc.citations.map (fun c => .srcBullet ("• " ++ c.full_citation))
         else []) from by simp [pptxSectionEvents, h]]
    rcases hc : sc.citations with _ | ⟨c0, rest⟩
    · simp
    · simp [List.isEmpty]
  · intro l
    simp [bodyEvents]
  · intro t ct h
    simp [bodyEvents, h, pyStrContent]

/-- Witness for C7 at concrete inputs: an absent id contributes nothing to
the docx trace, a non-empty citations list yields the labeled block, and a
non-`list` content type yields a single paragraph. -/
theorem claim_C7_witness :
    docxSectionEvents c7content.sections ⟨"y", "Y", "", "text"⟩ = [] ∧
    citeEvents c7cits =
      .srcLabel :: c7cits.map (fun c => .srcBullet ("• " ++ c.full_citation)) ∧
    bodyEvents "text" (.txt "body") = [.para "body"] :=
  ⟨(claim_C7.2.1 c7content.sections ⟨"y", "Y", "", "text"⟩ (by decide)).1,
   claim_C7.2.2.2.1 c7cits (by decide),
   claim_C7.2.2.2.2.2.2 "body" "text" (by decide)⟩

end TG
